import Mathlib

/-!
Verification of the chaintool repository's specification against its code.

Strings are modelled as lists of characters (`Str`).  Python functions from
the source files (`cli.py`, `command_impl.py`, `virtual_tools.py`,
`shared.py`) are translated into executable Lean definitions; stateful code
is translated into explicit state passing.  Python regular expressions used
by the source are translated into deterministic matching functions that
follow the backtracking behaviour of the concrete patterns (including the
detail that re's dollar anchor also matches just before a single trailing
newline, and that the dot class does not match a newline).
-/

namespace Chaintool

/-- Strings modelled as lists of characters. -/
abbrev Str := List Char

/-- Shorthand to turn a Lean string literal into a `Str`. -/
def str (s : String) : Str := s.data

/-! ## Basic string helpers -/

/-- Auxiliary scanner for `rfindNat`: index of the last occurrence.
`i` is the index of the head of the remaining input, `acc` the best hit so
far. -/
def rfindAux (c : Char) : Str → Nat → Option Nat → Option Nat
  | [], _, acc => acc
  | x :: rest, i, acc => rfindAux c rest (i + 1) (if x = c then some i else acc)

/-- Index of the last occurrence of `c` in `s`, if any.  This models
Python's `s.rfind(c)`, with `none` standing for the -1 result. -/
def rfindNat (c : Char) (s : Str) : Option Nat := rfindAux c s 0 none

/-- `str.partition`-style split used by several source functions: the part of
`s` before the first occurrence of `c`. -/
def beforeFirst (c : Char) (s : Str) : Str := s.takeWhile (fun x => x != c)

/-! ## Modifier functions (command_impl.py)

`os.sep` is `/` on the POSIX platforms chaintool targets; the path functions
below are `posixpath.basename` / `posixpath.dirname`. -/

/-- `stem_modifier` from command_impl.py: strip the final extension, if any
dot occurs after the final directory separator; otherwise return the input
unchanged.  (Note: the code keeps the directory part of the path.) -/
def stem_modifier (filepath : Str) : Str :=
  match rfindNat '.' filepath with
  | none => filepath
  | some dotpos =>
    match rfindNat '/' filepath with
    | none => filepath.take dotpos
    | some slashpos =>
      if dotpos < slashpos then filepath else filepath.take dotpos

/-- `os.path.basename` on POSIX: everything after the last slash. -/
def basenamePosix (p : Str) : Str :=
  match rfindNat '/' p with
  | none => p
  | some i => p.drop (i + 1)

/-- `os.path.dirname` on POSIX: everything before the last slash, with
trailing slashes stripped unless the result consists only of slashes. -/
def dirnamePosix (p : Str) : Str :=
  match rfindNat '/' p with
  | none => []
  | some i =>
    let head := p.take (i + 1)
    if head ≠ [] ∧ ¬ head.all (fun c => c = '/') then
      (head.reverse.dropWhile (fun c => c == '/')).reverse
    else head

/-- The part of `p` up to (and including) the final slash; `p` is
`dirSlice p ++ basenamePosix p`.  (Spec-side helper, used to state what the
stem modifier does with the directory portion.) -/
def dirSlice (p : Str) : Str :=
  match rfindNat '/' p with
  | none => []
  | some i => p.take (i + 1)

/-- Spec-side helper: strip the final dot-extension of a string (no
directory-separator awareness). -/
def stripFinalExt (b : Str) : Str :=
  match rfindNat '.' b with
  | none => b
  | some i => b.take i

/-- The result claimed by the spec for the stem modifier: the basename with
its final extension stripped.  (Modelled from the spec words, for comparison
with `stem_modifier`.) -/
def claimedStem (filepath : Str) : Str := stripFinalExt (basenamePosix filepath)

/-! ## Literal-brace escaping (command_impl.py) -/

/-- One `value.replace(cc, c)` pass of `collapse_literal_braces`: repeated
pairs of `c` become single, scanning left to right without overlap. -/
def collapseOne (c : Char) : Str → Str
  | [] => []
  | [x] => [x]
  | x :: y :: rest =>
    if x = c ∧ y = c then c :: collapseOne c rest
    else x :: collapseOne c (y :: rest)

/-- One `value.replace(c, cc)` pass of `explode_literal_braces`. -/
def explodeOne (c : Char) : Str → Str
  | [] => []
  | x :: rest => if x = c then c :: c :: explodeOne c rest else x :: explodeOne c rest

/-- `collapse_literal_braces` from command_impl.py:
`value.replace("{{", "{").replace("}}", "}")`. -/
def collapse_literal_braces (v : Str) : Str := collapseOne '}' (collapseOne '{' v)

/-- `explode_literal_braces` from command_impl.py:
`value.replace("{", "{{").replace("}", "}}")`. -/
def explode_literal_braces (v : Str) : Str := explodeOne '}' (explodeOne '{' v)

/-- A string containing no brace characters. -/
def braceFree (s : Str) : Prop := ∀ c ∈ s, c ≠ '{' ∧ c ≠ '}'

instance (s : Str) : Decidable (braceFree s) := by
  unfold braceFree; infer_instance

/-! ## Python value comparison (for the pid filter in cli.py)

`locker_pid` returns an `int` while `MY_PID` is a `str`; Python's `==`
between an int and a str is `False` (no coercion), hence `!=` is `True`. -/

/-- A Python value that is either an int or a str. -/
inductive PyVal where
  | pint (n : Int) : PyVal
  | pstr (s : Str) : PyVal
deriving DecidableEq

/-- Python `==` on such values: cross-type comparison yields `False`. -/
def pyEq : PyVal → PyVal → Bool
  | .pint a, .pint b => a = b
  | .pstr a, .pstr b => a = b
  | _, _ => false

/-- Python `!=`. -/
def pyNe (a b : PyVal) : Bool := ! pyEq a b

/-! ## Regular-expression matchers

Each Python regex used by the source is translated into a deterministic
function computing the unique match result (the patterns have essentially
deterministic backtracking, derived case by case). -/

/-- Semantics of a trailing `(.*)$` group in the Python patterns: the dot
does not match a newline, and the dollar anchor also matches just before a
single newline that ends the string.  Returns the captured group if the
whole remaining input `v` can be matched. -/
def dollarValue (v : Str) : Option Str :=
  if '\n' ∈ v then
    if v.getLast? = some '\n' ∧ '\n' ∉ v.dropLast then some v.dropLast else none
  else some v

/-- `PLACEHOLDER_TOGGLE_RE` (command_impl.py and cli.py):
`^(\+[^=]+)=([^:]*):(.*)$`.  Returns (group1, group2, group3). -/
def toggleMatch (s : Str) : Option (Str × Str × Str) :=
  match s with
  | '+' :: t =>
    let g1 := t.takeWhile (fun c => c != '=')
    match t.dropWhile (fun c => c != '=') with
    | '=' :: after =>
      if g1 = [] then none
      else
        let g2 := after.takeWhile (fun c => c != ':')
        match after.dropWhile (fun c => c != ':') with
        | ':' :: v => (dollarValue v).map (fun g3 => ('+' :: g1, g2, g3))
        | _ => none
    | _ => none
  | _ => none

/-- Greedy block scanner for the `((?:[^/+=]+/)*)` group of
`PLACEHOLDER_RE`: collects the maximal sequence of complete blocks (a
nonempty run of characters other than `/`, `+`, `=`, followed by `/`),
returning the blocks (without their slashes) and the remaining input.
`cur` and `acc` are reversed accumulators. -/
def pmBlocksAux : Str → Str → List Str → List Str × Str
  | [], cur, acc => (acc.reverse, cur.reverse)
  | c :: rest, cur, acc =>
    if c = '/' then
      if cur = [] then (acc.reverse, '/' :: rest)
      else pmBlocksAux rest [] (cur.reverse :: acc)
    else if c = '+' ∨ c = '=' then (acc.reverse, cur.reverse ++ c :: rest)
    else pmBlocksAux rest (c :: cur) acc

/-- Blocks and remainder for `PLACEHOLDER_RE`'s first group. -/
def pmBlocks (s : Str) : List Str × Str := pmBlocksAux s [] []

/-- Rebuild the modifiers group-1 text from a list of blocks. -/
def joinBlocks (bs : List Str) : Str := (bs.map (fun b => b ++ ['/'])).flatten

/-- Backtracking candidates for `PLACEHOLDER_RE`: pairs of (group-1 text,
remaining input), in the order the regex engine tries them (maximal number
of blocks first, then dropping blocks from the end). -/
def pmCandList : List Str → Str → List (Str × Str)
  | [], rem => [([], rem)]
  | b :: bs, rem =>
    ((pmCandList bs rem).map (fun pr => (b ++ '/' :: pr.1, pr.2))) ++
      [([], joinBlocks (b :: bs) ++ rem)]

/-- Attempt the `([^+][^=]*)(?:=(.*))?$` tail of `PLACEHOLDER_RE` on
remainder `r` with group-1 text `p`.  `none` means this candidate fails and
the engine backtracks to the next candidate. -/
def pmAttempt (p : Str) (r : Str) : Option (Str × Str × Option Str) :=
  match r with
  | [] => none
  | c :: t =>
    if c = '+' then none
    else
      let g2 := c :: t.takeWhile (fun x => x != '=')
      match t.dropWhile (fun x => x != '=') with
      | [] => some (p, g2, none)
      | _ :: v =>
        match dollarValue v with
        | some g3 => some (p, g2, some g3)
        | none => none

/-- First candidate that produces a match. -/
def pmFirst : List (Str × Str) → Option (Str × Str × Option Str)
  | [] => none
  | (p, r) :: rest =>
    match pmAttempt p r with
    | some res => some res
    | none => pmFirst rest

/-- `PLACEHOLDER_RE` (command_impl.py):
`^((?:[^/+=]+/)*)([^+][^=]*)(?:=(.*))?$`.
Returns (modifiers text, key, optional value). -/
def placeholderMatch (s : Str) : Option (Str × Str × Option Str) :=
  let (bs, rem) := pmBlocks s
  pmFirst (pmCandList bs rem)

/-- Character class `[a-zA-Z]`. -/
def isNameStart (c : Char) : Bool :=
  ('a' ≤ c ∧ c ≤ 'z') ∨ ('A' ≤ c ∧ c ≤ 'Z')

/-- Character class `[a-zA-Z0-9_]`. -/
def isNameChar (c : Char) : Bool :=
  isNameStart c || ('0' ≤ c ∧ c ≤ '9') || c = '_'

/-- Shape of `^[a-zA-Z][a-zA-Z0-9_]*` covering the whole input. -/
def alphanumShape (s : Str) : Bool :=
  match s with
  | [] => false
  | c :: rest => isNameStart c && rest.all isNameChar

/-- `ALPHANUM_RE` (`^[a-zA-Z][a-zA-Z0-9_]*$`) as a whole-string match,
including the dollar anchor's tolerance of one trailing newline. -/
def alphanumMatch (s : Str) : Bool :=
  alphanumShape s ||
    (!s.isEmpty && s.getLast? == some '\n' && alphanumShape s.dropLast)

/-- `ENV_OP_RE` (virtual_tools.py): `^([a-zA-Z][a-zA-Z0-9_]*)=(.*)$`. -/
def envOpMatch (s : Str) : Option (Str × Str) :=
  match s with
  | [] => none
  | c :: _ =>
    if isNameStart c then
      let name := s.takeWhile isNameChar
      match s.dropWhile isNameChar with
      | '=' :: v => (dollarValue v).map (fun g2 => (name, g2))
      | _ => none
    else none

/-! ## Dictionaries and sets

Python dicts are modelled as association lists with insertion order
preserved (updating an existing key keeps its position, a new key is
appended); Python sets as lists with add-if-absent. -/

/-- Association list with string keys. -/
abbrev Dyct (α : Type) := List (Str × α)

/-- Dictionary lookup (`d[k]` / `k in d`). -/
def dget {α : Type} (k : Str) : Dyct α → Option α
  | [] => none
  | (k₁, v) :: rest => if k₁ = k then some v else dget k rest

/-- Dictionary membership. -/
def dmem {α : Type} (k : Str) (d : Dyct α) : Bool := (dget k d).isSome

/-- Dictionary update: replace in place, or append as a new key. -/
def dset {α : Type} (k : Str) (v : α) : Dyct α → Dyct α
  | [] => [(k, v)]
  | (k₁, v₁) :: rest =>
    if k₁ = k then (k, v) :: rest else (k₁, v₁) :: dset k v rest

/-- Keys of a dictionary, in order. -/
def dkeys {α : Type} (d : Dyct α) : List Str := d.map Prod.fst

/-- Python `set.add`: add if not already present. -/
def sadd (x : Str) (s : List Str) : List Str := if x ∈ s then s else s ++ [x]

/-- `remove_if_present` (command_impl.py): remove the first occurrence of an
element from a list if it is a member. -/
def remove_if_present (x : Str) (l : List Str) : List Str :=
  if x ∈ l then l.erase x else l

/-! ## The commandline tokenizer (`process_cmdline`, command_impl.py)

The Python function walks the commandline character by character with three
state variables (`placeholder`, `cmdline_format`, `prev_undoubled_brace`)
and calls a handler on each complete single-brace token.  The handler
closures in the source mutate surrounding dictionaries, so the handler here
threads an explicit state `σ`. -/

/-- Update of `prev_undoubled_brace` performed at the end of each loop
iteration. -/
def nextPrev (c : Char) (prev : Option Char) : Option Char :=
  if some c = prev then none
  else if c = '{' ∨ c = '}' then some c
  else prev

/-- The loop of `process_cmdline`, with handler state `σ`.  A placeholder
left dangling at the end of input is dropped, exactly as in the source. -/
def processAux {σ : Type} (h : σ → Str → σ × Str) :
    Str → Str → Str → Option Char → σ → σ × Str
  | [], _ph, fmt, _prev, st => (st, fmt)
  | c :: rest, ph, fmt, prev, st =>
    if ph = [] then
      if prev = some '{' ∧ ¬(c = '{' ∨ c = '}') then
        processAux h rest [c] fmt (nextPrev c prev) st
      else
        processAux h rest [] (fmt ++ [c]) (nextPrev c prev) st
    else
      if c = '}' ∧ prev ≠ some '}' then
        match h st ph with
        | (st', rep) => processAux h rest [] (fmt ++ rep ++ [c]) (nextPrev c prev) st'
      else
        processAux h rest (ph ++ [c]) fmt (nextPrev c prev) st

/-- `process_cmdline` from command_impl.py: returns the final handler state
and the produced format string. -/
def process_cmdline {σ : Type} (h : σ → Str → σ × Str) (cmdline : Str) (st : σ) :
    σ × Str :=
  processAux h cmdline [] [] none st

/-- The sequence of placeholder tokens that `process_cmdline` feeds to its
handler, read off the same automaton (the handler cannot influence the
tokenization). -/
def tokensAux : Str → Str → Option Char → List Str
  | [], _, _ => []
  | c :: rest, ph, prev =>
    if ph = [] then
      if prev = some '{' ∧ ¬(c = '{' ∨ c = '}') then
        tokensAux rest [c] (nextPrev c prev)
      else
        tokensAux rest [] (nextPrev c prev)
    else
      if c = '}' ∧ prev ≠ some '}' then
        ph :: tokensAux rest [] (nextPrev c prev)
      else
        tokensAux rest (ph ++ [c]) (nextPrev c prev)

/-- Tokens of a commandline. -/
def cmdTokens (s : Str) : List Str := tokensAux s [] none

/-- The placeholder text left pending when the scan of the input ends (a
nonempty result means the commandline has an unclosed token, which
`process_cmdline` silently drops). -/
def endPhAux : Str → Str → Option Char → Str
  | [], ph, _ => ph
  | c :: rest, ph, prev =>
    if ph = [] then
      if prev = some '{' ∧ ¬(c = '{' ∨ c = '}') then
        endPhAux rest [c] (nextPrev c prev)
      else
        endPhAux rest [] (nextPrev c prev)
    else
      if c = '}' ∧ prev ≠ some '}' then
        endPhAux rest [] (nextPrev c prev)
      else
        endPhAux rest (ph ++ [c]) (nextPrev c prev)

/-- Pending placeholder at end of scan of a whole commandline. -/
def endPh (s : Str) : Str := endPhAux s [] none

/-! ## Placeholder validation and the `define` scan (command_impl.py) -/

/-- Names of the modifier functions in `MODIFIERS_DISPATCH`. -/
def MODIFIERS_KEYS : List Str := [str "dirname", str "basename", str "stem"]

/-- Apply one modifier function by name (`MODIFIERS_DISPATCH`); an unknown
name is unreachable once `valid_modifiers` has been enforced. -/
def modApply (m : Str) (v : Str) : Str :=
  if m = str "dirname" then dirnamePosix v
  else if m = str "basename" then basenamePosix v
  else if m = str "stem" then stem_modifier v
  else v

/-- `valid_modifiers` from command_impl.py. -/
def valid_modifiers (mods : List Str) : Bool :=
  mods.all (fun m => decide (m ∈ MODIFIERS_KEYS))

/-- `prefix.split("/")[:-1]` used by `handle_set_placeholder`. -/
def splitOnChar (c : Char) : Str → List Str
  | [] => [[]]
  | x :: rest =>
    match splitOnChar c rest with
    | h :: t => if x = c then [] :: h :: t else (x :: h) :: t
    | [] => [[x]]

/-- The modifiers list extracted from a group-1 text. -/
def splitSlashInit (s : Str) : List Str := (splitOnChar '/' s).dropLast

/-- `is_valid_name` from shared.py: nonempty and free of whitespace
(Python's `string.whitespace`). -/
def is_valid_name (n : Str) : Bool :=
  !n.isEmpty && n.all (fun c => !((str " \t\n\x0b\x0c\r").contains c))

/-- Accumulated violation sets of `define` (the `error_sets` dictionary). -/
structure ScanSt where
  values : Dyct (Option Str)
  modifiers : Dyct (List (List Str))
  toggles : Dyct (Str × Str)
  non_alphanum_names : List Str
  invalid_modifiers : List Str
  multi_value_names : List Str
  multi_togglevalue_names : List Str
  toggles_without_values : List Str
  toggle_dup_names : List Str
deriving DecidableEq

/-- Initial scan state: empty dictionaries, empty violation sets. -/
def ScanSt.initial : ScanSt := ⟨[], [], [], [], [], [], [], [], []⟩

/-- The `value` argument of `check_toggle_errors` as it occurs in the
source: a two-element list in the toggle branch, or the (string-or-None)
value forwarded by `check_placeholder_errors`.  Python list-vs-other
comparison is always unequal. -/
inductive TglVal where
  | pair (offv onv : Str) : TglVal
  | strv (s : Str) : TglVal
  | nonev : TglVal
deriving DecidableEq

/-- Python `==` between a stored `[off, on]` list and a `TglVal`. -/
def tglEq : Str × Str → TglVal → Bool
  | (a, b), .pair c d => a = c ∧ b = d
  | _, _ => false

/-- Record a bad-name violation. -/
def addNonAlphanum (key : Str) (st : ScanSt) : ScanSt :=
  { st with non_alphanum_names := sadd key st.non_alphanum_names }

/-- Record an invalid-modifiers violation. -/
def addInvalidMod (key : Str) (st : ScanSt) : ScanSt :=
  { st with invalid_modifiers := sadd key st.invalid_modifiers }

/-- Record a multiple-defaults violation. -/
def addMultiValue (key : Str) (st : ScanSt) : ScanSt :=
  { st with multi_value_names := sadd key st.multi_value_names }

/-- Record a conflicting-toggle-values violation. -/
def addMultiToggle (key : Str) (st : ScanSt) : ScanSt :=
  { st with multi_togglevalue_names := sadd key st.multi_togglevalue_names }

/-- Record a toggle-without-values violation. -/
def addTogglesNoVal (key : Str) (st : ScanSt) : ScanSt :=
  { st with toggles_without_values := sadd key st.toggles_without_values }

/-- Record a toggle/non-toggle name-clash violation. -/
def addToggleDup (key : Str) (st : ScanSt) : ScanSt :=
  { st with toggle_dup_names := sadd key st.toggle_dup_names }

/-- First statement of `check_toggle_errors`: name-syntax check. -/
def ctStep1 (key : Str) (st : ScanSt) : ScanSt :=
  if alphanumMatch (key.drop 1) then st else addNonAlphanum key st

/-- Second statement of `check_toggle_errors`: name-clash check. -/
def ctStep2 (key : Str) (st : ScanSt) : ScanSt :=
  if dmem (key.drop 1) st.values then addToggleDup (key.drop 1) st else st

/-- Third statement of `check_toggle_errors`.  The source tests
`if key is not None:`; `key` is always a string here (never Python `None`),
so the `else` branch that would record `toggles_without_values` is
unreachable.  The test is kept verbatim (as a test on `some key`). -/
def ctStep3 (key : Str) (value : TglVal) (st : ScanSt) : ScanSt :=
  if (some key).isSome then
    match dget key st.toggles with
    | some stored =>
      if tglEq stored value then st else addMultiToggle key st
    | none => st
  else addTogglesNoVal key st

/-- `check_toggle_errors` from command_impl.py. -/
def check_toggle_errors (key : Str) (value : TglVal) (st : ScanSt) : ScanSt :=
  ctStep3 key value (ctStep2 key (ctStep1 key st))

/-- Name-syntax statement of `check_placeholder_errors`. -/
def cpStep1 (key : Str) (st : ScanSt) : ScanSt :=
  if alphanumMatch key then st else addNonAlphanum key st

/-- Modifier-validity statement of `check_placeholder_errors`. -/
def cpStep2 (key : Str) (modifiers : List Str) (st : ScanSt) : ScanSt :=
  if valid_modifiers modifiers then st else addInvalidMod key st

/-- Name-clash statement of `check_placeholder_errors`. -/
def cpStep3 (key : Str) (st : ScanSt) : ScanSt :=
  if dmem ('+' :: key) st.toggles then addToggleDup key st else st

/-- Conflicting-defaults statement of `check_placeholder_errors`. -/
def cpStep4 (key : Str) (value : Option Str) (st : ScanSt) : ScanSt :=
  match dget key st.values with
  | some stored =>
    if stored = value then st else addMultiValue key st
  | none => st

/-- `check_placeholder_errors` from command_impl.py. -/
def check_placeholder_errors (key : Str) (modifiers : List Str)
    (value : Option Str) (st : ScanSt) : ScanSt :=
  match key with
  | '+' :: _ =>
    check_toggle_errors key
      (match value with | some s => TglVal.strv s | none => TglVal.nonev) st
  | _ => cpStep4 key value (cpStep3 key (cpStep2 key modifiers (cpStep1 key st)))

/-- `handle_set_placeholder` from command_impl.py, with the mutable
dictionaries threaded through `ScanSt`.  Returns the updated state and the
replacement text for the token. -/
def handle_set_placeholder (st : ScanSt) (ph : Str) : ScanSt × Str :=
  match toggleMatch ph with
  | some (key, g2, g3) =>
    let untoggled := collapse_literal_braces g2
    let toggled := collapse_literal_braces g3
    let st := check_toggle_errors key (TglVal.pair untoggled toggled) st
    let st := { st with toggles := dset key (untoggled, toggled) st.toggles }
    (st, key)
  | none =>
    let pkv : Str × Str × Option Str :=
      match placeholderMatch ph with
      | none => ([], ph, none)
      | some (p, k, v) => (p, k, v.map collapse_literal_braces)
    let mods := splitSlashInit pkv.1
    let st := check_placeholder_errors pkv.2.1 mods pkv.2.2 st
    let st := { st with values := dset pkv.2.1 pkv.2.2 st.values }
    let st :=
      if mods ≠ [] then
        { st with modifiers :=
            match dget pkv.2.1 st.modifiers with
            | some l => dset pkv.2.1 (l ++ [mods]) st.modifiers
            | none => dset pkv.2.1 [mods] st.modifiers }
      else st
    (st, pkv.1 ++ pkv.2.1)

/-- The scan of a whole commandline as performed by `define`. -/
def defineScan (cmdline : Str) : ScanSt × Str :=
  process_cmdline handle_set_placeholder cmdline ScanSt.initial

/-- The six violation categories of `error_sets`. -/
inductive ErrCat where
  | nonAlphanum : ErrCat
  | invalidMod : ErrCat
  | multiValue : ErrCat
  | multiToggle : ErrCat
  | togglesNoVal : ErrCat
  | toggleDup : ErrCat
deriving DecidableEq

/-- The violation categories reported by `print_errors`, in source order,
with their offending names; only non-empty categories are printed. -/
def reportedErrors (st : ScanSt) : List (ErrCat × List Str) :=
  (if st.non_alphanum_names ≠ [] then
    [(ErrCat.nonAlphanum, st.non_alphanum_names)] else []) ++
  (if st.invalid_modifiers ≠ [] then
    [(ErrCat.invalidMod, st.invalid_modifiers)] else []) ++
  (if st.multi_value_names ≠ [] then
    [(ErrCat.multiValue, st.multi_value_names)] else []) ++
  (if st.multi_togglevalue_names ≠ [] then
    [(ErrCat.multiToggle, st.multi_togglevalue_names)] else []) ++
  (if st.toggles_without_values ≠ [] then
    [(ErrCat.togglesNoVal, st.toggles_without_values)] else []) ++
  (if st.toggle_dup_names ≠ [] then
    [(ErrCat.toggleDup, st.toggle_dup_names)] else [])

/-- `print_errors` from command_impl.py: whether any violation set is
non-empty (the reported categories are given by `reportedErrors`). -/
def print_errors (st : ScanSt) : Bool :=
  st.non_alphanum_names ≠ [] ∨ st.invalid_modifiers ≠ [] ∨
  st.multi_value_names ≠ [] ∨ st.multi_togglevalue_names ≠ [] ∨
  st.toggles_without_values ≠ [] ∨ st.toggle_dup_names ≠ []

/-- A stored command document (the dictionary written by `define`). -/
structure CmdDict where
  cmdline : Str
  format : Str
  args : Dyct (Option Str)
  args_modifiers : Dyct (List (List Str))
  toggle_args : Dyct (Str × Str)
deriving DecidableEq

/-- The dictionary `define` builds for a commandline (whether or not the
scan accumulated violations). -/
def defineDict (cmdline : Str) : CmdDict :=
  match defineScan cmdline with
  | (st, fmt) => ⟨cmdline, fmt, st.values, st.modifiers, st.toggles⟩

/-- The stored commands, keyed by command name (the files in the commands
directory). -/
abbrev CmdStore := Dyct CmdDict

/-- `define` from command_impl.py, with the commands directory modelled as
`store`.  Returns (exit status, new store contents, whether a write was
performed).  With `overwrite = false` the write uses open mode `"x"`, whose
`FileExistsError` is caught and reported as an already-exists notice with
exit status 0. -/
def define (cmd : Str) (cmdline : Str) (overwrite : Bool)
    (store : CmdStore) : Nat × CmdStore × Bool :=
  if ¬ is_valid_name cmd then (1, store, false)
  else if cmdline = [] then (1, store, false)
  else
    match defineScan cmdline with
    | (st, fmt) =>
      if print_errors st then (1, store, false)
      else
        let d : CmdDict := ⟨cmdline, fmt, st.values, st.modifiers, st.toggles⟩
        if overwrite = false ∧ dmem cmd store then (0, store, false)
        else (0, dset cmd d store, true)

/-! ## The "vals" update path (command_impl.py) -/

/-- `handle_update_placeholder` from command_impl.py: re-serialize one
placeholder token from the (possibly updated) args/toggle dictionaries. -/
def handle_update_placeholder (ph : Str) (args : Dyct (Option Str))
    (tgls : Dyct (Str × Str)) : Str :=
  match toggleMatch ph with
  | some (key, _, _) =>
    match dget key tgls with
    | none => ph
    | some (untoggled, toggled) =>
      key ++ '=' :: explode_literal_braces untoggled ++
        ':' :: explode_literal_braces toggled
  | none =>
    let pk : Str × Str :=
      match placeholderMatch ph with
      | none => ([], ph)
      | some (p, k, _) => (p, k)
    match dget pk.2 args with
    | none => ph
    | some none => pk.1 ++ pk.2
    | some (some v) => pk.1 ++ pk.2 ++ '=' :: explode_literal_braces v

/-- `update_cmdline` from command_impl.py: regenerate the stored commandline
from the updated placeholder values. -/
def update_cmdline (d : CmdDict) : CmdDict :=
  { d with cmdline :=
      (process_cmdline
        (fun (u : Unit) t => (u, handle_update_placeholder t d.args d.toggle_args))
        d.cmdline ()).2 }

/-- Loop of `update_default_values_from_args`.  `none` models the
reject-with-error returns (and the `IndexError` Python would raise on an
empty argument string, which no theorem below relies on). -/
def updDefaultLoop (valid : List Str) :
    List Str → Dyct (Option Str) → Dyct (Str × Str) → List Str →
    Option (Dyct (Option Str) × Dyct (Str × Str) × List Str)
  | [], values, tgls, unused => some (values, tgls, unused)
  | a :: rest, values, tgls, unused =>
    match toggleMatch a with
    | some (key, g2, g3) =>
      if dmem key tgls then
        updDefaultLoop valid rest values (dset key (g2, g3) tgls)
          (remove_if_present a unused)
      else updDefaultLoop valid rest values tgls unused
    | none =>
      match a with
      | [] => none
      | c :: _ =>
        if c = '+' then none
        else
          match placeholderMatch a with
          | none => updDefaultLoop valid rest values tgls unused
          | some (pre, key, value) =>
            if pre ≠ [] then none
            else if key ∈ valid then
              updDefaultLoop valid rest (dset key value values) tgls
                (remove_if_present a unused)
            else updDefaultLoop valid rest values tgls unused

/-- `update_default_values_from_args` from command_impl.py. -/
def update_default_values_from_args (values : Dyct (Option Str))
    (tgls : Dyct (Str × Str)) (all_args unused : List Str) :
    Option (Dyct (Option Str) × Dyct (Str × Str) × List Str) :=
  updDefaultLoop (dkeys values) all_args values tgls unused

/-! ## The "run" resolution path (command_impl.py) -/

/-- `"/".join(modlist) + "/"`. -/
def slashJoin : List Str → Str
  | [] => []
  | [x] => x
  | x :: y :: rest => x ++ '/' :: slashJoin (y :: rest)

/-- Apply a modifier chain innermost-first (`for modifier in
reversed(modlist)`). -/
def modChainApply (modlist : List Str) (v : Str) : Str :=
  modlist.foldr modApply v

/-- `populated_modified_values` from command_impl.py: synthesize the
`modifiers_prefix + name` entries.  (A `None` base value would make Python
crash; it cannot occur after the unspecified-placeholder check.) -/
def populated_modified_values (values : Dyct (Option Str))
    (mods : Dyct (List (List Str))) : Dyct (Option Str) :=
  mods.foldl
    (fun vs nmll =>
      if dmem nmll.1 vs then
        nmll.2.foldl
          (fun vs2 modlist =>
            match dget nmll.1 vs2 with
            | some (some v) =>
              dset (slashJoin modlist ++ '/' :: nmll.1)
                (some (modChainApply modlist v)) vs2
            | _ => vs2)
          vs
      else vs)
    values

/-- Loop of `update_runtime_values_from_args`.  `tglsInit` is the stored
toggle dictionary (not modified by the loop); `unact` is
`unactivated_toggles`. -/
def updRuntimeLoop (valid : List Str) (tglsInit : Dyct (Str × Str)) :
    List Str → Dyct (Option Str) → List Str → List Str →
    Option (Dyct (Option Str) × List Str × List Str)
  | [], values, unact, unused => some (values, unact, unused)
  | a :: rest, values, unact, unused =>
    match toggleMatch a with
    | some _ => none
    | none =>
      match a with
      | [] => none
      | c :: _ =>
        if c = '+' then
          match dget a tglsInit with
          | some tv =>
            updRuntimeLoop valid tglsInit rest (dset a (some tv.2) values)
              (remove_if_present a unact) (remove_if_present a unused)
          | none => updRuntimeLoop valid tglsInit rest values unact unused
        else
          match placeholderMatch a with
          | none => updRuntimeLoop valid tglsInit rest values unact unused
          | some (pre, key, value) =>
            if pre ≠ [] then none
            else
              match value with
              | none => none
              | some v =>
                if key ∈ valid then
                  updRuntimeLoop valid tglsInit rest (dset key (some v) values)
                    unact (remove_if_present a unused)
                else updRuntimeLoop valid tglsInit rest values unact unused

/-- `update_runtime_values_from_args` from command_impl.py. -/
def update_runtime_values_from_args (values : Dyct (Option Str))
    (mods : Dyct (List (List Str))) (tgls : Dyct (Str × Str))
    (all_args unused : List Str) : Option (Dyct (Option Str) × List Str) :=
  let valid := dkeys values
  match updRuntimeLoop valid tgls all_args values (dkeys tgls) unused with
  | none => none
  | some (values, unact, unused) =>
    let values := unact.foldl
      (fun vs k =>
        match dget k tgls with
        | some tv => dset k (some tv.1) vs
        | none => vs)
      values
    let unspecified := valid.filter (fun k => ((dget k values).getD none).isNone)
    if unspecified ≠ [] then none
    else some (populated_modified_values values mods, unused)

/-- `command_with_values` from command_impl.py: load the command and apply
either the run or the vals update path. -/
def command_with_values (store : CmdStore) (cmd : Str)
    (args unused : List Str) (is_run : Bool) : Option (CmdDict × List Str) :=
  match dget cmd store with
  | none => none
  | some d =>
    if is_run then
      match update_runtime_values_from_args d.args d.args_modifiers
          d.toggle_args args unused with
      | none => none
      | some (values, unused') => some ({ d with args := values }, unused')
    else
      match update_default_values_from_args d.args d.toggle_args args unused with
      | none => none
      | some (values, tgls, unused') =>
        some ({ d with args := values, toggle_args := tgls }, unused')

/-- `vals` from command_impl.py: apply the vals update path and write the
regenerated command back.  Returns (status, new store, new unused list). -/
def vals (store : CmdStore) (cmd : Str) (args unused : List Str) :
    Nat × CmdStore × List Str :=
  match command_with_values store cmd args unused false with
  | none => (1, store, unused)
  | some (d, unused') => (0, dset cmd (update_cmdline d) store, unused')

/-! ## Virtual tools (virtual_tools.py) -/

/-- The scan over `run_args` performed for one env op (with `break`).
`none` models the `IndexError` Python raises on an empty argument. -/
def envScanSet : List Str → Str → Option Bool
  | [], _ => some false
  | a :: rest, dst =>
    match a with
    | [] => none
    | c :: _ =>
      if c = '+' then envScanSet rest dst
      else if beforeFirst '=' a = dst then some true
      else envScanSet rest dst

/-- The op loop of `envtool`. -/
def envLoop : List (Str × Str) → List Str → Option (List Str)
  | [], ra => some ra
  | (dst, src) :: rest, ra =>
    match envScanSet ra dst with
    | none => none
    | some true => envLoop rest ra
    | some false => envLoop rest (ra ++ [dst ++ '=' :: src])

/-- `envtool` from virtual_tools.py.  Returns the exit status and the new
run-args list; `none` models an uncaught exception. -/
def envtool (env_args run_args : List Str) : Option (Nat × List Str) :=
  let ops := env_args.map envOpMatch
  if none ∈ ops then some (1, run_args)
  else (envLoop (ops.filterMap id) run_args).map (fun ra => (0, ra))

/-- Commandline word splitting for the dispatcher.  The source uses
`shlex.split`; on the quote-free, space-separated commandlines considered
below this is a split on space runs. -/
def wordsSplit (s : Str) : List Str :=
  (splitOnChar ' ' s).filter (fun w => w ≠ [])

/-- Result of `virtual_tools.dispatch`. -/
inductive DispatchRes where
  | crash : DispatchRes
  | noVTool : DispatchRes
  | vtool (status : Nat) (args : List Str) : DispatchRes
deriving DecidableEq

/-- `dispatch` from virtual_tools.py.  The file copy/delete effects of
`copytool`/`deltool` are external I/O whose success is abstracted by the
oracle `ext` (like subprocess exit statuses); their argument-count checks
are modelled. -/
def dispatch (ext : Str → Nat) (cmdline : Str) (run_args : List Str) :
    DispatchRes :=
  match wordsSplit cmdline with
  | [] => .crash
  | t0 :: rest =>
    if t0 = str "chaintool-env" then
      match envtool rest run_args with
      | none => .crash
      | some (st, args') => .vtool st args'
    else if t0 = str "chaintool-copy" then
      .vtool (if rest.length = 2 then ext cmdline else 1) run_args
    else if t0 = str "chaintool-del" then
      .vtool (if rest.length = 1 then ext cmdline else 1) run_args
    else .noVTool

/-! ## Running a command and a sequence (command_impl.py `run`, and the
sequence run loop of cli.py `handle_seq_run` / sequence.py `cli_run`) -/

/-- Application of Python's `format` to the stored format string with the
resolved values (`cmd_dict["format"].format(**cmd_dict["args"])`).  `none`
models an uncaught formatting error (missing key, unmatched brace, or a
still-`None` value), none of which can occur for documents produced by a
successful `define` after the run path has resolved all values. -/
def formatApplyGo (values : Dyct (Option Str)) : Nat → Str → Option Str
  | _, [] => some []
  | 0, _ :: _ => none
  | n + 1, '{' :: '{' :: rest => (formatApplyGo values n rest).map (fun t => '{' :: t)
  | n + 1, '{' :: rest =>
    let key := rest.takeWhile (fun c => c != '}')
    match rest.dropWhile (fun c => c != '}') with
    | '}' :: rest2 =>
      match dget key values with
      | some (some v) => (formatApplyGo values n rest2).map (fun t => v ++ t)
      | _ => none
    | _ => none
  | n + 1, '}' :: '}' :: rest => (formatApplyGo values n rest).map (fun t => '}' :: t)
  | _ + 1, '}' :: _ => none
  | n + 1, c :: rest => (formatApplyGo values n rest).map (fun t => c :: t)

/-- `cmd_dict["format"].format(**cmd_dict["args"])`: the fuel (one unit per
consumed character, so `fmt.length` never runs out) makes the recursion
structural. -/
def formatApply (fmt : Str) (values : Dyct (Option Str)) : Option Str :=
  formatApplyGo values fmt.length fmt

/-- `run` from command_impl.py for one command: resolve values, format the
line, offer it to the dispatcher, otherwise execute externally via `ext`.
Returns (status, new run args, new unused args, the resolved line). -/
def cmd_run (store : CmdStore) (ext : Str → Nat) (cmd : Str)
    (args unused : List Str) :
    Option (Nat × List Str × List Str × Option Str) :=
  match command_with_values store cmd args unused true with
  | none => some (1, args, unused, none)
  | some (d, unused') =>
    match formatApply d.format d.args with
    | none => none
    | some line =>
      match dispatch ext line args with
      | .crash => none
      | .noVTool => some (ext line, args, unused', some line)
      | .vtool status args' => some (status, args', unused', some line)

/-- Result of a sequence run: final status, final run-args list, final
unused-args list, and the per-command trace of resolved commandlines
(`none` for a skipped or failed command). -/
structure SeqRunRes where
  status : Nat
  args : List Str
  unused : List Str
  trace : List (Str × Option Str)
deriving DecidableEq

/-- The command loop of the sequence run (`handle_seq_run` in cli.py /
`cli_run` in sequence.py): run members in list order with the shared
run-args and unused-args lists, stopping at the first nonzero status unless
`ignoreErrors`. -/
def seq_run_aux (store : CmdStore) (ext : Str → Nat) (skip : List Str)
    (ignoreErrors : Bool) :
    List Str → List Str → List Str → List (Str × Option Str) →
    Option SeqRunRes
  | [], args, unused, trace => some ⟨0, args, unused, trace⟩
  | cmd :: rest, args, unused, trace =>
    if cmd ∈ skip then
      seq_run_aux store ext skip ignoreErrors rest args unused
        (trace ++ [(cmd, none)])
    else
      match cmd_run store ext cmd args unused with
      | none => none
      | some (status, args', unused', line) =>
        if status ≠ 0 ∧ ¬ ignoreErrors then
          some ⟨status, args', unused', trace ++ [(cmd, line)]⟩
        else
          seq_run_aux store ext skip ignoreErrors rest args' unused'
            (trace ++ [(cmd, line)])

/-- Run a sequence (the unused list starts as a copy of the args list). -/
def seq_run (store : CmdStore) (ext : Str → Nat) (cmds : List Str)
    (args : List Str) (skip : List Str) (ignoreErrors : Bool) :
    Option SeqRunRes :=
  seq_run_aux store ext skip ignoreErrors cmds args args []

/-! ## The lock manager (cli.py)

Lock markers are files named `{resource-prefix}.{mode}.{pid}` in the locks
directory; paths are modelled relative to that directory.  `MY_PID` in the
source is the *string* `str(os.getpid())`, while `locker_pid` returns an
*int*; the self-marker filter compares the two with Python `!=` (see
`pyNe`). -/

/-- The characters after the last dot of a marker path
(`lock_path[lock_path.rindex('.') + 1:]`; marker names always contain a
dot). -/
def afterLastDot (p : Str) : Str :=
  match rfindNat '.' p with
  | some i => p.drop (i + 1)
  | none => p

/-- Decimal digit parse, as `int()` does on the digit strings that occur in
marker names. -/
def digitsToNat (s : Str) : Nat :=
  s.foldl (fun acc c => acc * 10 + (c.toNat - 48)) 0

/-- `locker_pid` from cli.py: the int parsed from the text after the last
dot of the marker path. -/
def locker_pid (p : Str) : Int := Int.ofNat (digitsToNat (afterLastDot p))

/-- `str(pid)`. -/
def pidStr (pid : Nat) : Str := Nat.toDigits 10 pid

/-- The two lock modes. -/
inductive LockMode where
  | read : LockMode
  | write : LockMode
deriving DecidableEq

/-- `LockType.value`. -/
def lockModeStr : LockMode → Str
  | .read => str "read"
  | .write => str "write"

/-- The two item kinds. -/
inductive ItemType where
  | cmd : ItemType
  | seq : ItemType
deriving DecidableEq

/-- The string used for an item kind in lock-file names. -/
def itemTypeStr : ItemType → Str
  | .cmd => str "cmd"
  | .seq => str "seq"

/-- A lockable resource: the inventory of a kind, or a named item of a
kind. -/
inductive Resource where
  | inventory (t : ItemType) : Resource
  | item (t : ItemType) (name : Str) : Resource
deriving DecidableEq

/-- The resource part of its marker-file names (`"inventory-" + item_type`
in `inventory_lock`, `item_type + "-" + item_name` in `item_lock`). -/
def resourceKey : Resource → Str
  | .inventory t => str "inventory-" ++ itemTypeStr t
  | .item t n => itemTypeStr t ++ '-' :: n

/-- The marker file created when `pid` holds a `m`-mode lock on `r`
(`'.'.join([prefix, lock_type.value, MY_PID])`). -/
def markerName (r : Resource) (m : LockMode) (pid : Str) : Str :=
  resourceKey r ++ '.' :: (lockModeStr m ++ '.' :: pid)

/-- The conflict glob pattern computed by `lock_internal`: for a WRITE
request `prefix + ".*"`, for a READ request
`'.'.join([prefix, "write", "*"])`. -/
def conflictGlob (lt : LockMode) (rk : Str) : Str :=
  match lt with
  | .write => rk ++ str ".*"
  | .read => rk ++ str ".write.*"

/-- Split a bracket-class body at its first `]` (fnmatch: the scan for the
closing bracket). -/
def breakRB : Str → Option (Str × Str)
  | [] => none
  | ']' :: t => some ([], t)
  | c :: t => (breakRB t).map (fun pr => (c :: pr.1, pr.2))

/-- Parse the text after a `[` as fnmatch does: an optional leading `!`
negates, a `]` directly after it is a literal member, and the class runs to
the next `]`; `none` means no closing bracket, in which case the `[` is
taken literally.  Returns (negated, class body, rest of pattern). -/
def classSplit (p : Str) : Option (Bool × Str × Str) :=
  match p with
  | '!' :: p1 =>
    match p1 with
    | ']' :: t => (breakRB t).map (fun pr => (true, ']' :: pr.1, pr.2))
    | _ => (breakRB p1).map (fun pr => (true, pr.1, pr.2))
  | ']' :: t => (breakRB t).map (fun pr => (false, ']' :: pr.1, pr.2))
  | _ => (breakRB p).map (fun pr => (false, pr.1, pr.2))

/-- Membership of a character in a bracket-class body: `a-b` spans the
range, any other character stands for itself (a trailing or leading `-` is
literal). -/
def classMem : Str → Char → Bool
  | [], _ => false
  | a :: '-' :: b :: rest, d =>
    (decide (a ≤ d) && decide (d ≤ b)) || classMem rest d
  | a :: rest, d => (a = d) || classMem rest d

/-- `fnmatch.fnmatch` on one path component (POSIX, no case folding): `*`
matches any sequence, `?` any single character, `[...]`/`[!...]` a
character class, an unterminated `[` is literal.  The fuel (one unit per
consumed pattern or name character, so the sum of the lengths never runs
out) makes the recursion structural. -/
def globMatchGo : Nat → Str → Str → Bool
  | 0, _, _ => false
  | _ + 1, [], s => decide (s = [])
  | n + 1, c :: p, s =>
    if c = '*' then
      globMatchGo n p s ||
        (match s with
         | [] => false
         | _ :: t => globMatchGo n (c :: p) t)
    else if c = '?' then
      match s with
      | [] => false
      | _ :: t => globMatchGo n p t
    else if c = '[' then
      match classSplit p with
      | none =>
        match s with
        | [] => false
        | d :: t => d = '[' && globMatchGo n p t
      | some (neg, body, rest) =>
        match s with
        | [] => false
        | d :: t =>
          (if neg then ! classMem body d else classMem body d) &&
            globMatchGo n rest t
    else
      match s with
      | [] => false
      | d :: t => c = d && globMatchGo n p t

/-- Matching of one directory entry against the last glob component, as
`glob.glob` does it (`glob1`): names starting with a dot are hidden unless
the pattern itself starts with a dot, otherwise `fnmatch` decides. -/
def globMatch (pattern name : Str) : Bool :=
  if name.head? = some '.' ∧ pattern.head? ≠ some '.' then false
  else globMatchGo (pattern.length + name.length + 2) pattern name

/-- The conflicting-marker list computed by one iteration of
`lock_internal`: glob for the conflict pattern, then drop markers whose
`locker_pid` "equals" `MY_PID` (an int-vs-str comparison). -/
def conflictsComputed (lt : LockMode) (r : Resource) (markers : List Str)
    (myPid : Str) : List Str :=
  (markers.filter (fun l => globMatch (conflictGlob lt (resourceKey r)) l)).filter
    (fun l => pyNe (PyVal.pint (locker_pid l)) (PyVal.pstr myPid))

/-- `lock_internal` iterated against a fixed environment: `markers` is the
set of marker files on disk, `livePids` the pids `psutil` reports alive.
Each iteration recomputes the conflict list, succeeds if it is empty
(creating the caller's marker), and otherwise deletes the dead conflicting
markers and retries.  `fuel` bounds the number of attempts; `none` means no
acquisition within that many attempts. -/
def lock_internal_iter (lt : LockMode) (r : Resource) (myPid : Str)
    (livePids : List Int) : List Str → Nat → Option (List Str)
  | _, 0 => none
  | markers, fuel + 1 =>
    if conflictsComputed lt r markers myPid = [] then
      some (markers ++ [markerName r lt myPid])
    else
      lock_internal_iter lt r myPid livePids
        (markers.filter
          (fun m => ! (decide (m ∈ conflictsComputed lt r markers myPid) &&
            decide (locker_pid m ∉ livePids))))
        fuel

/-- Events of the `lock_internal` wait loop. -/
inductive LockEv where
  | metaAcq : LockEv
  | metaRel : LockEv
  | markerCreated : LockEv
  | notice : LockEv
  | sleepBackoff : LockEv
deriving DecidableEq

/-- The wait/notice behaviour of `lock_internal`, with the per-attempt
conflict outcomes given as a list (`true` = conflicting markers remain on
that attempt).  Mirrors the loop: on a failed attempt the meta-lock is
released and then, only when `first_try` is already false, the notice is
printed and the backoff sleep happens; the first failure merely clears
`first_try`. -/
def lock_wait_trace : List Bool → Bool → Option (List LockEv)
  | [], _ => none
  | conflict :: rest, first_try =>
    if conflict then
      if first_try then
        (lock_wait_trace rest false).map
          (fun evs => LockEv.metaAcq :: LockEv.metaRel :: evs)
      else
        (lock_wait_trace rest first_try).map
          (fun evs =>
            LockEv.metaAcq :: LockEv.metaRel :: LockEv.notice ::
              LockEv.sleepBackoff :: evs)
    else some [LockEv.metaAcq, LockEv.markerCreated, LockEv.metaRel]

/-- Number of waiting notices in an event list. -/
def noticeCount (evs : List LockEv) : Nat :=
  (evs.filter (fun e => e = LockEv.notice)).length

/-- Number of backoff sleeps in an event list. -/
def sleepCount (evs : List LockEv) : Nat :=
  (evs.filter (fun e => e = LockEv.sleepBackoff)).length

/-! ## Concurrent create-only writes (command_impl.py `write_dict` with
mode `"x"`)

`open(path, "x")` is atomic on the filesystem: it creates the file if and
only if it does not yet exist, else raises `FileExistsError`.  Two
processes performing one such step each are modelled by executing the two
atomic steps in either order. -/

/-- Outcome of a create-only write attempt. -/
inductive WriteOutcome where
  | created : WriteOutcome
  | alreadyExists : WriteOutcome
deriving DecidableEq

/-- One atomic create-only write of `d` under name `cmd`. -/
def write_create_only (cmd : Str) (d : CmdDict) (store : CmdStore) :
    CmdStore × WriteOutcome :=
  if dmem cmd store then (store, .alreadyExists)
  else (dset cmd d store, .created)

/-- Two processes each perform one atomic create-only write of the same
name; `firstIsP1` selects the interleaving.  Returns the outcomes observed
by process 1 and process 2 and the final store. -/
def twoCreateOnly (cmd : Str) (d1 d2 : CmdDict) (store : CmdStore)
    (firstIsP1 : Bool) : WriteOutcome × WriteOutcome × CmdStore :=
  if firstIsP1 then
    match write_create_only cmd d1 store with
    | (s1, o1) =>
      match write_create_only cmd d2 s1 with
      | (s2, o2) => (o1, o2, s2)
  else
    match write_create_only cmd d2 store with
    | (s1, o2) =>
      match write_create_only cmd d1 s1 with
      | (s2, o1) => (o1, o2, s2)

/-! ## Predicates used in claim statements -/

/-- Classification of a non-toggle placeholder token as `define` sees it:
its key and the default value it stores (collapsed), or `none` for toggle
tokens. -/
def tokenPlainKV (tok : Str) : Option (Str × Option Str) :=
  match toggleMatch tok with
  | some _ => none
  | none =>
    match placeholderMatch tok with
    | none => some (tok, none)
    | some (_, k, v) => some (k, v.map collapse_literal_braces)

/-- Classification of a toggle token: its key and stored off/on values. -/
def tokenToggleKV (tok : Str) : Option (Str × Str × Str) :=
  (toggleMatch tok).map
    (fun kgg => (kgg.1, collapse_literal_braces kgg.2.1,
      collapse_literal_braces kgg.2.2))

/-- A token containing no brace and no newline characters (the benign
tokens for which re-serialization is exact). -/
def niceToken (tok : Str) : Prop := ∀ c ∈ tok, c ≠ '{' ∧ c ≠ '}' ∧ c ≠ '\n'

instance (tok : Str) : Decidable (niceToken tok) := by
  unfold niceToken; infer_instance

/-- An item name free of dots and slashes (so its lock-marker names cannot
collide with those of other resources). -/
def plainItemName (n : Str) : Prop := ∀ c ∈ n, c ≠ '.' ∧ c ≠ '/'

instance (n : Str) : Decidable (plainItemName n) := by
  unfold plainItemName; infer_instance

/-- Well-formedness of a resource for the amended C2 statement. -/
def resourcePlain : Resource → Prop
  | .inventory _ => True
  | .item _ n => plainItemName n

instance (r : Resource) : Decidable (resourcePlain r) := by
  cases r <;> (unfold resourcePlain; infer_instance)

/-- A pid string rendered from digits (in particular slash- and
dot-free). -/
def digitStr (s : Str) : Prop := s ≠ [] ∧ ∀ c ∈ s, '0' ≤ c ∧ c ≤ '9'

instance (s : Str) : Decidable (digitStr s) := by
  unfold digitStr; infer_instance

/-- An item name free of dots, slashes and the glob metacharacters `*`,
`?`, `[` (all of which `glob.glob` would interpret inside the conflict
pattern built from the name). -/
def globSafeName (n : Str) : Prop :=
  ∀ c ∈ n, c ≠ '.' ∧ c ≠ '/' ∧ c ≠ '*' ∧ c ≠ '?' ∧ c ≠ '['

instance (n : Str) : Decidable (globSafeName n) := by
  unfold globSafeName; infer_instance

/-- Well-formedness of the requested resource for the amended C2
statement: its name must not inject glob syntax into the pattern. -/
def resourceGlobSafe : Resource → Prop
  | .inventory _ => True
  | .item _ n => globSafeName n

instance (r : Resource) : Decidable (resourceGlobSafe r) := by
  cases r <;> (unfold resourceGlobSafe; infer_instance)

/-- A run argument that assigns `nm`: non-toggle, and its text before the
first `=` equals `nm` (this is the test `envtool` performs). -/
def assignsName (nm : Str) (a : Str) : Bool :=
  match a with
  | [] => false
  | c :: _ => c ≠ '+' && beforeFirst '=' a = nm

/-- The per-op behaviour of `chaintool-env` described by claim C10: leave
the list alone when some run argument already assigns the name, otherwise
append exactly `name=value`. -/
def envStepSpec (ra : List Str) (op : Str × Str) : List Str :=
  if ra.any (assignsName op.1) then ra else ra ++ [op.1 ++ '=' :: op.2]

/-- A run argument of the shape `name=value` with an alphanumeric name
different from `x` (used to state the C7 scenario: arguments that do not
assign `x` and cannot fail the run path). -/
def plainAssignOther (x : Str) (a : Str) : Bool :=
  alphanumShape (beforeFirst '=' a) && a.contains '=' && beforeFirst '=' a ≠ x

/-- The expected event trace of the lock wait loop when the first `j + 1`
attempts find conflicts and the next attempt succeeds: the meta-lock is
taken and dropped on the first failure with no notice and no sleep, every
later failure adds a notice and a sleep, and the final attempt creates the
marker while holding the meta-lock. -/
def lockWaitEvents (j : Nat) : List LockEv :=
  [LockEv.metaAcq, LockEv.metaRel] ++
    (List.replicate j
      [LockEv.metaAcq, LockEv.metaRel, LockEv.notice, LockEv.sleepBackoff]).flatten ++
    [LockEv.metaAcq, LockEv.markerCreated, LockEv.metaRel]

/-! # Theorems -/


/-! # Theorems -/

/-! ## Dictionary lemmas -/

theorem dget_dset_self {α : Type} (k : Str) (v : α) (d : Dyct α) :
    dget k (dset k v d) = some v := by
  induction d with
  | nil => simp [dget, dset]
  | cons hd t ih =>
    by_cases hk : hd.1 = k
    · simp [dget, dset, hk]
    · simp [dget, dset, hk, ih]

theorem dget_dset_ne {α : Type} (k k' : Str) (v : α) (d : Dyct α)
    (h : k' ≠ k) : dget k' (dset k v d) = dget k' d := by
  have hne : ¬ (k = k') := fun hh => h hh.symm
  induction d with
  | nil => simp [dget, dset, hne]
  | cons hd t ih =>
    by_cases hk : hd.1 = k
    · simp [dget, dset, hk, hne]
    · by_cases hk' : hd.1 = k' <;> simp [dget, dset, hk, hk', h, ih]

theorem dset_dset_self {α : Type} (k : Str) (v : α) (d : Dyct α) :
    dset k v (dset k v d) = dset k v d := by
  induction d with
  | nil => simp [dset]
  | cons hd t ih =>
    by_cases hk : hd.1 = k
    · simp [dset, hk]
    · simp [dset, hk, ih]

theorem dmem_dset {α : Type} (k k' : Str) (v : α) (d : Dyct α)
    (h : dmem k' d = true) : dmem k' (dset k v d) = true := by
  by_cases hk : k' = k
  · subst hk; simp [dmem, dget_dset_self]
  · rwa [dmem, dget_dset_ne _ _ _ _ hk]

/-! ## rfind lemmas -/

theorem rfindAux_shift (c : Char) (s : Str) : ∀ (i : Nat) (acc : Option Nat),
    rfindAux c s i acc =
      match rfindNat c s with
      | some j => some (i + j)
      | none => acc := by
  induction s with
  | nil => intro i acc; simp [rfindAux, rfindNat]
  | cons x rest ih =>
    intro i acc
    show rfindAux c rest (i + 1) (if x = c then some i else acc) = _
    have hr : rfindNat c (x :: rest) =
        rfindAux c rest 1 (if x = c then some 0 else none) := rfl
    rw [ih, hr, ih]
    cases hfind : rfindNat c rest with
    | some j =>
      simp only []
      congr 1
      omega
    | none =>
      by_cases hx : x = c <;> simp [hx]

theorem rfindNat_cons (c x : Char) (rest : Str) :
    rfindNat c (x :: rest) =
      match rfindNat c rest with
      | some j => some (j + 1)
      | none => if x = c then some 0 else none := by
  show rfindAux c rest 1 (if x = c then some 0 else none) = _
  rw [rfindAux_shift]
  cases rfindNat c rest with
  | some j =>
    simp only []
    congr 1
    omega
  | none => rfl

theorem rfindNat_append (c : Char) (a b : Str) :
    rfindNat c (a ++ b) =
      match rfindNat c b with
      | some j => some (a.length + j)
      | none => rfindNat c a := by
  induction a with
  | nil =>
    simp only [List.nil_append, List.length_nil, Nat.zero_add]
    cases rfindNat c b <;> rfl
  | cons x a' ih =>
    rw [List.cons_append, rfindNat_cons, ih, rfindNat_cons]
    cases rfindNat c b with
    | some j =>
      simp only [List.length_cons]
      congr 1
      omega
    | none => cases rfindNat c a' <;> rfl

theorem rfindNat_append_some (c : Char) (a b : Str) (j : Nat)
    (h : rfindNat c b = some j) :
    rfindNat c (a ++ b) = some (a.length + j) := by
  rw [rfindNat_append, h]

theorem rfindNat_append_none (c : Char) (a b : Str)
    (h : rfindNat c b = none) :
    rfindNat c (a ++ b) = rfindNat c a := by
  rw [rfindNat_append, h]

theorem rfindNat_none_iff (c : Char) (s : Str) :
    rfindNat c s = none ↔ c ∉ s := by
  induction s with
  | nil => simp [rfindNat, rfindAux]
  | cons x rest ih =>
    rw [rfindNat_cons]
    cases hfind : rfindNat c rest with
    | some j =>
      have hc : c ∈ rest := by
        by_contra hc
        rw [ih.mpr hc] at hfind
        exact Option.noConfusion hfind
      simp [hc]
    | none =>
      have hc : c ∉ rest := ih.mp hfind
      by_cases hx : x = c
      · simp [hx]
      · have hxc : ¬ c = x := fun hh => hx hh.symm
        simp [hx, hc, hxc]

theorem rfindNat_lt_length (c : Char) (s : Str) (i : Nat)
    (h : rfindNat c s = some i) : i < s.length := by
  induction s generalizing i with
  | nil => simp [rfindNat, rfindAux] at h
  | cons x rest ih =>
    rw [rfindNat_cons] at h
    cases hfind : rfindNat c rest with
    | some j =>
      rw [hfind] at h
      simp only [Option.some.injEq] at h
      subst h
      have := ih j hfind
      simp only [List.length_cons]
      omega
    | none =>
      rw [hfind] at h
      by_cases hx : x = c
      · rw [if_pos hx] at h
        simp only [Option.some.injEq] at h
        subst h
        simp
      · rw [if_neg hx] at h
        exact Option.noConfusion h

theorem rfindNat_getD (c : Char) (s : Str) (i : Nat)
    (h : rfindNat c s = some i) : s.getD i ' ' = c := by
  induction s generalizing i with
  | nil => simp [rfindNat, rfindAux] at h
  | cons x rest ih =>
    rw [rfindNat_cons] at h
    cases hfind : rfindNat c rest with
    | some j =>
      rw [hfind] at h
      simp only [Option.some.injEq] at h
      subst h
      simpa [List.getD_cons_succ] using ih j hfind
    | none =>
      rw [hfind] at h
      by_cases hx : x = c
      · rw [if_pos hx] at h
        simp only [Option.some.injEq] at h
        subst h
        simpa [List.getD_cons_zero] using hx
      · rw [if_neg hx] at h
        exact Option.noConfusion h

/-! ## Claim C6: the stem modifier -/

theorem stripFinalExt_no_dot (b : Str) (h : '.' ∉ b) : stripFinalExt b = b := by
  unfold stripFinalExt
  rw [(rfindNat_none_iff '.' b).mpr h]

/-- C6 counterexample: on `a/b.c` the code returns `a/b`, while the claimed
"basename with the final extension stripped" is `b`; `stem_modifier` keeps
the directory part of the filepath. -/
theorem c6_counterexample :
    stem_modifier (str "a/b.c") = str "a/b" ∧
      claimedStem (str "a/b.c") = str "b" ∧
      stem_modifier (str "a/b.c") ≠ claimedStem (str "a/b.c") := by
  decide

/-- C6 (amended): for every filepath, `stem_modifier` returns the directory
slice (everything up to and including the final separator) unchanged,
followed by the basename with its final extension, if any, stripped.  The
code does not take the basename; chaining the `basename` modifier before
`stem` is how the claimed value is obtained. -/
theorem c6_stem_strips_extension_after_last_sep (fp : Str) :
    stem_modifier fp = dirSlice fp ++ stripFinalExt (basenamePosix fp) := by
  cases hslash : rfindNat '/' fp with
  | none =>
    unfold stem_modifier dirSlice basenamePosix stripFinalExt
    rw [hslash]
    cases hdot : rfindNat '.' fp <;> simp
  | some i =>
    have hi : i < fp.length := rfindNat_lt_length _ _ _ hslash
    have hsplit : fp.take (i + 1) ++ fp.drop (i + 1) = fp :=
      List.take_append_drop (i + 1) fp
    have hlen : (fp.take (i + 1)).length = i + 1 := by
      rw [List.length_take]
      omega
    have hdir : dirSlice fp = fp.take (i + 1) := by
      unfold dirSlice
      rw [hslash]
    have hbase : basenamePosix fp = fp.drop (i + 1) := by
      unfold basenamePosix
      rw [hslash]
    rw [hdir, hbase]
    cases hdotb : rfindNat '.' (fp.drop (i + 1)) with
    | some j =>
      have hdot : rfindNat '.' fp = some (i + 1 + j) := by
        have hh := rfindNat_append_some '.' (fp.take (i + 1)) _ _ hdotb
        rw [hsplit, hlen] at hh
        exact hh
      unfold stem_modifier
      rw [hdot, hslash]
      have hnlt : ¬ (i + 1 + j < i) := by omega
      simp only [hnlt, if_false]
      unfold stripFinalExt
      rw [hdotb]
      conv_lhs => rw [← hsplit]
      rw [List.take_append_eq_append_take, hlen,
        List.take_of_length_le (by rw [hlen]; omega)]
      congr 2
      omega
    | none =>
      have hdot2 : rfindNat '.' fp = rfindNat '.' (fp.take (i + 1)) := by
        have hh := rfindNat_append_none '.' (fp.take (i + 1)) _ hdotb
        rw [hsplit] at hh
        exact hh
      have hstrip : stripFinalExt (fp.drop (i + 1)) = fp.drop (i + 1) :=
        stripFinalExt_no_dot _ ((rfindNat_none_iff _ _).mp hdotb)
      rw [hstrip]
      cases hdota : rfindNat '.' (fp.take (i + 1)) with
      | none =>
        unfold stem_modifier
        rw [hdot2, hdota]
        exact hsplit.symm
      | some d =>
        have hdlt : d < i + 1 := by
          have := rfindNat_lt_length _ _ _ hdota
          omega
        have hdc : (fp.take (i + 1)).getD d ' ' = '.' :=
          rfindNat_getD _ _ _ hdota
        have hfpd : fp.getD d ' ' = '.' := by
          rw [List.getD_eq_getElem?_getD] at hdc ⊢
          rw [List.getElem?_take] at hdc
          simpa [hdlt] using hdc
        have hslc : fp.getD i ' ' = '/' := rfindNat_getD _ _ _ hslash
        have hdne : d ≠ i := by
          intro hh
          rw [hh, hslc] at hfpd
          exact absurd hfpd (by decide)
        have hlt : d < i := by omega
        unfold stem_modifier
        rw [hdot2, hdota, hslash]
        simp only [hlt, if_true]
        exact hsplit.symm

/-! ## Claim C1: the self-marker filter (cli.py `lock_internal`) -/

theorem pyNe_int_str (n : Int) (s : Str) :
    pyNe (PyVal.pint n) (PyVal.pstr s) = true := rfl

/-- C1 (code bug): the conflicting-marker filter compares the int
`locker_pid(l)` against the string `MY_PID`, so it never excludes the
caller's own markers.  At the failing input — process 42 already holds a
read marker on `cmd-foo` and re-requests a lock on that resource while
process 42 is alive — the own marker stays in the computed conflict set and
the acquisition loop never returns, for any number of attempts. -/
theorem c1_self_filter_broken_reacquire_blocks :
    conflictsComputed LockMode.write (Resource.item ItemType.cmd (str "foo"))
        [markerName (Resource.item ItemType.cmd (str "foo")) LockMode.read
          (pidStr 42)] (pidStr 42) =
      [markerName (Resource.item ItemType.cmd (str "foo")) LockMode.read
        (pidStr 42)] ∧
    ∀ fuel,
      lock_internal_iter LockMode.write (Resource.item ItemType.cmd (str "foo"))
        (pidStr 42) [(42 : Int)]
        [markerName (Resource.item ItemType.cmd (str "foo")) LockMode.read
          (pidStr 42)] fuel = none := by
  constructor
  · decide
  · intro fuel
    induction fuel with
    | zero => rfl
    | succ n ih =>
      rw [lock_internal_iter, if_neg (by decide),
        show List.filter _ _ = [markerName (Resource.item ItemType.cmd (str "foo"))
            LockMode.read (pidStr 42)] from by decide]
      exact ih

/-! ## Claim C9: concurrent create-only defines -/

/-- C9: for any interleaving of two atomic create-only writes of the same
name, the two processes never both observe `created`; when the item is
initially absent, exactly one observes `created` and the other observes
`alreadyExists`. -/
theorem c9_create_only_exclusive (cmd : Str) (d1 d2 : CmdDict)
    (store : CmdStore) (firstIsP1 : Bool) :
    ¬((twoCreateOnly cmd d1 d2 store firstIsP1).1 = WriteOutcome.created ∧
        (twoCreateOnly cmd d1 d2 store firstIsP1).2.1 = WriteOutcome.created) ∧
    (dmem cmd store = false →
      ((twoCreateOnly cmd d1 d2 store firstIsP1).1 = WriteOutcome.created ∧
        (twoCreateOnly cmd d1 d2 store firstIsP1).2.1 = WriteOutcome.alreadyExists) ∨
      ((twoCreateOnly cmd d1 d2 store firstIsP1).1 = WriteOutcome.alreadyExists ∧
        (twoCreateOnly cmd d1 d2 store firstIsP1).2.1 = WriteOutcome.created)) := by
  have hset : ∀ d : CmdDict, dmem cmd (dset cmd d store) = true := by
    intro d
    simp [dmem, dget_dset_self]
  by_cases hmem : dmem cmd store = true <;>
    cases firstIsP1 <;>
      simp_all [twoCreateOnly, write_create_only]

/-- Witness for C9 at a concrete input. -/
theorem c9_create_only_exclusive_witness :
    dmem (str "x") ([] : CmdStore) = false ∧
    (¬((twoCreateOnly (str "x") (defineDict (str "a")) (defineDict (str "b"))
          ([] : CmdStore) true).1 = WriteOutcome.created ∧
        (twoCreateOnly (str "x") (defineDict (str "a")) (defineDict (str "b"))
          ([] : CmdStore) true).2.1 = WriteOutcome.created) ∧
      (dmem (str "x") ([] : CmdStore) = false →
        ((twoCreateOnly (str "x") (defineDict (str "a")) (defineDict (str "b"))
            ([] : CmdStore) true).1 = WriteOutcome.created ∧
          (twoCreateOnly (str "x") (defineDict (str "a")) (defineDict (str "b"))
            ([] : CmdStore) true).2.1 = WriteOutcome.alreadyExists) ∨
        ((twoCreateOnly (str "x") (defineDict (str "a")) (defineDict (str "b"))
            ([] : CmdStore) true).1 = WriteOutcome.alreadyExists ∧
          (twoCreateOnly (str "x") (defineDict (str "a")) (defineDict (str "b"))
            ([] : CmdStore) true).2.1 = WriteOutcome.created))) :=
  ⟨by decide,
    c9_create_only_exclusive (str "x") (defineDict (str "a"))
      (defineDict (str "b")) ([] : CmdStore) true⟩

/-! ## Claim C8: the wait loop's notice and backoff -/

/-- C8 counterexample: an acquisition that fails once and succeeds on its
single retry prints no waiting notice at all (and sleeps no backoff),
whereas the claim requires the notice exactly once, on the first retry. -/
theorem c8_counterexample :
    lock_wait_trace [true, false] true = some (lockWaitEvents 0) ∧
    noticeCount (lockWaitEvents 0) = 0 ∧ sleepCount (lockWaitEvents 0) = 0 := by
  decide

theorem lock_wait_trace_from_second (j : Nat) :
    lock_wait_trace (List.replicate j true ++ [false]) false =
      some ((List.replicate j
          [LockEv.metaAcq, LockEv.metaRel, LockEv.notice,
            LockEv.sleepBackoff]).flatten ++
        [LockEv.metaAcq, LockEv.markerCreated, LockEv.metaRel]) := by
  induction j with
  | zero => rfl
  | succ n ih =>
    show lock_wait_trace (true :: (List.replicate n true ++ [false])) false = _
    simp only [lock_wait_trace, if_true, Bool.false_eq_true, if_false, ih,
      Option.map_some, List.replicate_succ, List.flatten_cons]
    rfl

/-- C8 (amended): when the first `j + 1` attempts find conflicts and the
next attempt succeeds, the meta-lock is acquired and released on every
attempt, but no backoff sleep and no waiting notice precede the first
retry; the notice is printed and the backoff slept before every retry after
the first, so the notice appears `j` times — not exactly once. -/
theorem c8_notice_on_every_later_retry (j : Nat) :
    lock_wait_trace (List.replicate (j + 1) true ++ [false]) true =
      some (lockWaitEvents j) ∧
    noticeCount (lockWaitEvents j) = j ∧ sleepCount (lockWaitEvents j) = j := by
  refine ⟨?_, ?_, ?_⟩
  · show lock_wait_trace (true :: (List.replicate j true ++ [false])) true = _
    simp only [lock_wait_trace, if_true, lock_wait_trace_from_second,
      Option.map_some, lockWaitEvents]
    rfl
  · have hflat : ∀ n : Nat,
        (List.filter (fun e => decide (e = LockEv.notice))
          (List.replicate n [LockEv.metaAcq, LockEv.metaRel, LockEv.notice,
            LockEv.sleepBackoff]).flatten).length = n := by
      intro n
      induction n with
      | zero => decide
      | succ m ih =>
        rw [List.replicate_succ, List.flatten_cons, List.filter_append,
          List.length_append, ih,
          show (List.filter (fun e => decide (e = LockEv.notice))
            [LockEv.metaAcq, LockEv.metaRel, LockEv.notice,
              LockEv.sleepBackoff]).length = 1 from by decide]
        omega
    simp only [noticeCount, lockWaitEvents, List.filter_append,
      List.length_append, hflat]
    rw [show (List.filter (fun e => decide (e = LockEv.notice))
        [LockEv.metaAcq, LockEv.metaRel]).length = 0 from by decide,
      show (List.filter (fun e => decide (e = LockEv.notice))
        [LockEv.metaAcq, LockEv.markerCreated, LockEv.metaRel]).length = 0
        from by decide]
    omega
  · have hflat : ∀ n : Nat,
        (List.filter (fun e => decide (e = LockEv.sleepBackoff))
          (List.replicate n [LockEv.metaAcq, LockEv.metaRel, LockEv.notice,
            LockEv.sleepBackoff]).flatten).length = n := by
      intro n
      induction n with
      | zero => decide
      | succ m ih =>
        rw [List.replicate_succ, List.flatten_cons, List.filter_append,
          List.length_append, ih,
          show (List.filter (fun e => decide (e = LockEv.sleepBackoff))
            [LockEv.metaAcq, LockEv.metaRel, LockEv.notice,
              LockEv.sleepBackoff]).length = 1 from by decide]
        omega
    simp only [sleepCount, lockWaitEvents, List.filter_append,
      List.length_append, hflat]
    rw [show (List.filter (fun e => decide (e = LockEv.sleepBackoff))
        [LockEv.metaAcq, LockEv.metaRel]).length = 0 from by decide,
      show (List.filter (fun e => decide (e = LockEv.sleepBackoff))
        [LockEv.metaAcq, LockEv.markerCreated, LockEv.metaRel]).length = 0
        from by decide]
    omega

/-! ## Claim C2: which markers the conflict pattern matches -/

theorem conflictsComputed_eq (lt : LockMode) (r : Resource)
    (markers : List Str) (myPid : Str) :
    conflictsComputed lt r markers myPid =
      markers.filter (fun l => globMatch (conflictGlob lt (resourceKey r)) l) := by
  unfold conflictsComputed
  rw [List.filter_eq_self.mpr]
  intro a _
  exact pyNe_int_str _ _

/-- C2 counterexample: a read marker of the distinct resource `cmd-a.b`
held by process 7 is in the conflict set computed for a WRITE lock on
`cmd-a` (requested by process 99), although the claim says a marker of any
other resource is never treated as conflicting; likewise the glob
interprets a `*` inside the admitted item name `x*`, so the distinct
resource `cmd-xy`'s marker is matched as well. -/
theorem c2_counterexample :
    (Resource.item ItemType.cmd (str "a") ≠ Resource.item ItemType.cmd (str "a.b") ∧
    conflictsComputed LockMode.write (Resource.item ItemType.cmd (str "a"))
        [markerName (Resource.item ItemType.cmd (str "a.b")) LockMode.read (str "7")]
        (str "99") =
      [markerName (Resource.item ItemType.cmd (str "a.b")) LockMode.read (str "7")]) ∧
    (Resource.item ItemType.cmd (str "x*") ≠ Resource.item ItemType.cmd (str "xy") ∧
    conflictsComputed LockMode.write (Resource.item ItemType.cmd (str "x*"))
        [markerName (Resource.item ItemType.cmd (str "xy")) LockMode.read (str "7")]
        (str "99") =
      [markerName (Resource.item ItemType.cmd (str "xy")) LockMode.read (str "7")]) := by
  decide

theorem dotfree_prefix_cancel (a : Str) :
    ∀ (b u tb : Str), '.' ∉ a → '.' ∉ b →
      (a ++ '.' :: u) <+: (b ++ '.' :: tb) → a = b ∧ u <+: tb := by
  induction a with
  | nil =>
    intro b u tb _ hb h
    cases b with
    | nil =>
      rw [List.nil_append, List.nil_append, List.cons_prefix_cons] at h
      exact ⟨rfl, h.2⟩
    | cons y b' =>
      rw [List.nil_append, List.cons_append, List.cons_prefix_cons] at h
      obtain ⟨hy, _⟩ := h
      subst hy
      exact absurd (List.mem_cons_self _ _) hb
  | cons x a' ih =>
    intro b u tb ha hb h
    cases b with
    | nil =>
      rw [List.cons_append, List.nil_append, List.cons_prefix_cons] at h
      obtain ⟨hy, _⟩ := h
      rw [hy] at ha
      exact absurd (List.mem_cons_self _ _) ha
    | cons y b' =>
      rw [List.cons_append, List.cons_append, List.cons_prefix_cons] at h
      obtain ⟨hxy, h2⟩ := h
      subst hxy
      have ha' : '.' ∉ a' := fun hm => ha (List.mem_cons_of_mem _ hm)
      have hb' : '.' ∉ b' := fun hm => hb (List.mem_cons_of_mem _ hm)
      obtain ⟨he, hp⟩ := ih b' u tb ha' hb' h2
      exact ⟨by rw [he], hp⟩

theorem resourceKey_dotfree (r : Resource) (h : resourcePlain r) :
    '.' ∉ resourceKey r := by
  cases r with
  | inventory t => cases t <;> decide
  | item t n =>
    intro hm
    rw [resourceKey, List.mem_append] at hm
    cases hm with
    | inl hm => cases t <;> revert hm <;> decide
    | inr hm =>
      rw [List.mem_cons] at hm
      cases hm with
      | inl hm => exact absurd hm (by decide)
      | inr hm => exact absurd rfl (h '.' hm).1

theorem resourceKey_head (r : Resource) :
    (resourceKey r).head? =
      some (match r with
        | .inventory _ => 'i'
        | .item .cmd _ => 'c'
        | .item .seq _ => 's') := by
  cases r with
  | inventory t => cases t <;> rfl
  | item t n => cases t <;> rfl

theorem resourceKey_inj (r1 r2 : Resource)
    (he : resourceKey r1 = resourceKey r2) : r1 = r2 := by
  cases r1 with
  | inventory t1 =>
    cases r2 with
    | inventory t2 =>
      cases t1 <;> cases t2 <;> first
        | rfl
        | exact absurd he (by decide)
    | item t2 n =>
      cases t1 <;> cases t2 <;>
        { have hh := congrArg List.head? he
          rw [resourceKey_head, resourceKey_head] at hh
          simp at hh }
  | item t1 n1 =>
    cases r2 with
    | inventory t2 =>
      cases t1 <;> cases t2 <;>
        { have hh := congrArg List.head? he
          rw [resourceKey_head, resourceKey_head] at hh
          simp at hh }
    | item t2 n2 =>
      cases t1 <;> cases t2 <;> first
        | (have hh : ('c' :: 'm' :: 'd' :: '-' :: n1 : Str) =
              'c' :: 'm' :: 'd' :: '-' :: n2 := he
           simp only [List.cons.injEq, true_and] at hh
           rw [hh])
        | (have hh : ('s' :: 'e' :: 'q' :: '-' :: n1 : Str) =
              's' :: 'e' :: 'q' :: '-' :: n2 := he
           simp only [List.cons.injEq, true_and] at hh
           rw [hh])
        | { have hh := congrArg List.head? he
            rw [resourceKey_head, resourceKey_head] at hh
            simp at hh }

theorem markerName_decomp (r : Resource) (m : LockMode) (q : Str) :
    markerName r m q = resourceKey r ++ '.' :: (lockModeStr m ++ '.' :: q) := rfl

theorem glob_star_all : ∀ (n : Nat) (s : Str), s.length + 2 ≤ n →
    globMatchGo n (['*'] : Str) s = true := by
  intro n
  induction n with
  | zero =>
    intro s h
    omega
  | succ m ih =>
    intro s h
    simp only [globMatchGo, if_true]
    cases s with
    | nil =>
      obtain ⟨k, rfl⟩ : ∃ k, m = k + 1 := ⟨m - 1, by omega⟩
      simp [globMatchGo]
    | cons d t =>
      have hrec := ih t (by simp only [List.length_cons] at h; omega)
      simp [hrec]

theorem glob_lit_star (lit : Str)
    (hm : ∀ c ∈ lit, c ≠ '*' ∧ c ≠ '?' ∧ c ≠ '[') :
    ∀ (n : Nat) (s : Str), lit.length + s.length + 2 ≤ n →
      (globMatchGo n (lit ++ ['*']) s = true ↔ lit <+: s) := by
  induction lit with
  | nil =>
    intro n s h
    simp only [List.nil_append]
    rw [glob_star_all n s (by simp only [List.length_nil] at h; omega)]
    simp
  | cons c lit ih =>
    intro n s h
    obtain ⟨m, rfl⟩ : ∃ m, n = m + 1 := ⟨n - 1, by omega⟩
    have hc := hm c (by simp)
    simp only [List.cons_append, globMatchGo]
    rw [if_neg hc.1, if_neg hc.2.1, if_neg hc.2.2]
    cases s with
    | nil => simp
    | cons d t =>
      rw [Bool.and_eq_true, List.cons_prefix_cons]
      have hrec := ih (fun x hx => hm x (by simp [hx])) m t
        (by simp only [List.length_cons] at h; omega)
      constructor
      · rintro ⟨h1, h2⟩
        exact ⟨by simpa using h1, hrec.mp h2⟩
      · rintro ⟨h1, h2⟩
        subst h1
        exact ⟨by simp, hrec.mpr h2⟩

theorem globMatch_eq_go (pattern name : Str)
    (h : ¬ (name.head? = some '.' ∧ pattern.head? ≠ some '.')) :
    globMatch pattern name =
      globMatchGo (pattern.length + name.length + 2) pattern name := by
  unfold globMatch
  rw [if_neg h]

theorem markerName_head (r : Resource) (m : LockMode) (q : Str) :
    (markerName r m q).head? = (resourceKey r).head? := by
  cases r with
  | inventory t => cases t <;> rfl
  | item t n => cases t <;> rfl

theorem resourceKey_metafree (r : Resource) (h : resourceGlobSafe r) :
    '*' ∉ resourceKey r ∧ '?' ∉ resourceKey r ∧ '[' ∉ resourceKey r := by
  cases r with
  | inventory t => cases t <;> exact ⟨by decide, by decide, by decide⟩
  | item t n =>
    refine ⟨?_, ?_, ?_⟩
    · intro hm
      rw [resourceKey, List.mem_append] at hm
      rcases hm with hm | hm
      · cases t <;> revert hm <;> decide
      · rw [List.mem_cons] at hm
        rcases hm with hm | hm
        · exact absurd hm (by decide)
        · exact (h _ hm).2.2.1 rfl
    · intro hm
      rw [resourceKey, List.mem_append] at hm
      rcases hm with hm | hm
      · cases t <;> revert hm <;> decide
      · rw [List.mem_cons] at hm
        rcases hm with hm | hm
        · exact absurd hm (by decide)
        · exact (h _ hm).2.2.2.1 rfl
    · intro hm
      rw [resourceKey, List.mem_append] at hm
      rcases hm with hm | hm
      · cases t <;> revert hm <;> decide
      · rw [List.mem_cons] at hm
        rcases hm with hm | hm
        · exact absurd hm (by decide)
        · exact (h _ hm).2.2.2.2 rfl

theorem resourceGlobSafe_plain (r : Resource) (h : resourceGlobSafe r) :
    resourcePlain r := by
  cases r with
  | inventory t => trivial
  | item t n =>
    intro c hc
    exact ⟨(h c hc).1, (h c hc).2.1⟩

theorem marker_not_hidden (lt : LockMode) (rA rB : Resource) (m : LockMode)
    (q : Str) :
    ¬ ((markerName rB m q).head? = some '.' ∧
      (conflictGlob lt (resourceKey rA)).head? ≠ some '.') := by
  intro hcon
  have h1 := hcon.1
  rw [markerName_head, resourceKey_head] at h1
  simp only [Option.some.injEq] at h1
  cases rB with
  | inventory t =>
    simp only [] at h1
    exact absurd h1 (by decide)
  | item t n =>
    cases t <;> simp only [] at h1 <;> exact absurd h1 (by decide)

theorem globMatch_write_marker (rA rB : Resource) (m : LockMode) (q : Str)
    (hA : resourceGlobSafe rA) (hB : resourcePlain rB) :
    globMatch (conflictGlob LockMode.write (resourceKey rA))
        (markerName rB m q) = true ↔ rB = rA := by
  rw [globMatch_eq_go _ _ (marker_not_hidden LockMode.write rA rB m q)]
  have hlit : conflictGlob LockMode.write (resourceKey rA) =
      (resourceKey rA ++ ['.']) ++ ['*'] := by
    show resourceKey rA ++ str ".*" = _
    simp [str]
  rw [hlit]
  have hmf : ∀ c ∈ resourceKey rA ++ ['.'], c ≠ '*' ∧ c ≠ '?' ∧ c ≠ '[' := by
    intro c hc
    rcases List.mem_append.mp hc with hc | hc
    · obtain ⟨h1, h2, h3⟩ := resourceKey_metafree rA hA
      exact ⟨fun hh => h1 (by rw [← hh]; exact hc),
        fun hh => h2 (by rw [← hh]; exact hc),
        fun hh => h3 (by rw [← hh]; exact hc)⟩
    · rw [List.mem_singleton] at hc
      subst hc
      exact ⟨by decide, by decide, by decide⟩
  rw [glob_lit_star (resourceKey rA ++ ['.']) hmf _ (markerName rB m q)
    (by simp only [List.length_append, List.length_cons, List.length_nil]
        omega)]
  constructor
  · intro hpre
    rw [markerName_decomp] at hpre
    have hcancel := dotfree_prefix_cancel (resourceKey rA) (resourceKey rB)
      [] (lockModeStr m ++ '.' :: q)
      (resourceKey_dotfree _ (resourceGlobSafe_plain rA hA))
      (resourceKey_dotfree _ hB) (by simpa using hpre)
    exact (resourceKey_inj _ _ hcancel.1).symm
  · intro h
    subst h
    rw [markerName_decomp]
    refine ⟨lockModeStr m ++ '.' :: q, ?_⟩
    simp

theorem globMatch_read_marker (rA rB : Resource) (m : LockMode) (q : Str)
    (hA : resourceGlobSafe rA) (hB : resourcePlain rB) :
    globMatch (conflictGlob LockMode.read (resourceKey rA))
        (markerName rB m q) = true ↔ (rB = rA ∧ m = LockMode.write) := by
  rw [globMatch_eq_go _ _ (marker_not_hidden LockMode.read rA rB m q)]
  have hlit : conflictGlob LockMode.read (resourceKey rA) =
      (resourceKey rA ++ '.' :: str "write.") ++ ['*'] := by
    show resourceKey rA ++ str ".write.*" = _
    simp [str]
  rw [hlit]
  have hmf : ∀ c ∈ resourceKey rA ++ '.' :: str "write.",
      c ≠ '*' ∧ c ≠ '?' ∧ c ≠ '[' := by
    intro c hc
    rcases List.mem_append.mp hc with hc | hc
    · obtain ⟨h1, h2, h3⟩ := resourceKey_metafree rA hA
      exact ⟨fun hh => h1 (by rw [← hh]; exact hc),
        fun hh => h2 (by rw [← hh]; exact hc),
        fun hh => h3 (by rw [← hh]; exact hc)⟩
    · simp only [str, List.mem_cons, List.not_mem_nil, or_false] at hc
      rcases hc with rfl | rfl | rfl | rfl | rfl | rfl | rfl <;>
        exact ⟨by decide, by decide, by decide⟩
  rw [glob_lit_star (resourceKey rA ++ '.' :: str "write.") hmf _
    (markerName rB m q)
    (by simp only [List.length_append, List.length_cons]
        omega)]
  constructor
  · intro hpre
    rw [markerName_decomp] at hpre
    have hcancel := dotfree_prefix_cancel (resourceKey rA) (resourceKey rB)
      (str "write.") (lockModeStr m ++ '.' :: q)
      (resourceKey_dotfree _ (resourceGlobSafe_plain rA hA))
      (resourceKey_dotfree _ hB) hpre
    refine ⟨(resourceKey_inj _ _ hcancel.1).symm, ?_⟩
    cases m with
    | write => rfl
    | read =>
      have hw := hcancel.2
      rw [show (str "write.") = 'w' :: str "rite." from rfl,
        show lockModeStr LockMode.read ++ '.' :: q = 'r' :: (str "ead" ++ '.' :: q)
          from rfl, List.cons_prefix_cons] at hw
      exact absurd hw.1 (by decide)
  · intro h
    obtain ⟨h1, h2⟩ := h
    subst h1
    subst h2
    rw [markerName_decomp]
    refine ⟨q, ?_⟩
    show resourceKey rB ++ '.' :: str "write." ++ q =
      resourceKey rB ++ '.' :: (str "write" ++ '.' :: q)
    simp [str]

/-- C2 (amended): for requested resources whose item names are free of
dots, slashes and glob metacharacters, and marker-owning resources with
dot- and slash-free names, the computed conflict set for a WRITE request
contains exactly that resource's markers of either mode present on disk,
and for a READ request exactly its write markers — regardless of which
process owns them (the self-filter excludes nothing, see C1).  Both name
restrictions are needed: a dotted sibling name is matched by the trailing
`.*` of the pattern, and a metacharacter in the requested name is
interpreted by the glob (see the counterexamples). -/
theorem c2_conflict_set_exact (rA rB : Resource) (m : LockMode)
    (q myPid : Str) (markers : List Str) (hA : resourceGlobSafe rA)
    (hB : resourcePlain rB) :
    (markerName rB m q ∈ conflictsComputed LockMode.write rA markers myPid ↔
      markerName rB m q ∈ markers ∧ rB = rA) ∧
    (markerName rB m q ∈ conflictsComputed LockMode.read rA markers myPid ↔
      markerName rB m q ∈ markers ∧ rB = rA ∧ m = LockMode.write) := by
  rw [conflictsComputed_eq, conflictsComputed_eq, List.mem_filter,
    List.mem_filter, globMatch_write_marker rA rB m q hA hB,
    globMatch_read_marker rA rB m q hA hB]
  exact ⟨Iff.rfl, Iff.rfl⟩

/-- Witness for C2 at a concrete input: the resource `cmd-foo`, its own
read marker held by process 7, requested by process 7 itself. -/
theorem c2_conflict_set_exact_witness :
    resourceGlobSafe (Resource.item ItemType.cmd (str "foo")) ∧
    resourcePlain (Resource.item ItemType.cmd (str "foo")) ∧
    ((markerName (Resource.item ItemType.cmd (str "foo")) LockMode.read (str "7") ∈
        conflictsComputed LockMode.write (Resource.item ItemType.cmd (str "foo"))
          [markerName (Resource.item ItemType.cmd (str "foo")) LockMode.read (str "7")]
          (str "7") ↔
      markerName (Resource.item ItemType.cmd (str "foo")) LockMode.read (str "7") ∈
          [markerName (Resource.item ItemType.cmd (str "foo")) LockMode.read (str "7")] ∧
        Resource.item ItemType.cmd (str "foo") = Resource.item ItemType.cmd (str "foo")) ∧
    (markerName (Resource.item ItemType.cmd (str "foo")) LockMode.read (str "7") ∈
        conflictsComputed LockMode.read (Resource.item ItemType.cmd (str "foo"))
          [markerName (Resource.item ItemType.cmd (str "foo")) LockMode.read (str "7")]
          (str "7") ↔
      markerName (Resource.item ItemType.cmd (str "foo")) LockMode.read (str "7") ∈
          [markerName (Resource.item ItemType.cmd (str "foo")) LockMode.read (str "7")] ∧
        Resource.item ItemType.cmd (str "foo") = Resource.item ItemType.cmd (str "foo") ∧
        LockMode.read = LockMode.write)) :=
  ⟨by decide, by decide,
    c2_conflict_set_exact (Resource.item ItemType.cmd (str "foo"))
      (Resource.item ItemType.cmd (str "foo")) LockMode.read (str "7") (str "7")
      [markerName (Resource.item ItemType.cmd (str "foo")) LockMode.read (str "7")]
      (by decide) (by decide)⟩

/-! ## Claim C5: bare toggle tokens -/

/-- C5 (code bug): `check_toggle_errors` tests `if key is not None:` where
the intent (per the spec and the error category's own report text) is
`value`; `key` is always a string, so the `toggles_without_values` category
can never be populated, and `define` on a template with the bare toggle
token `{+flag}` succeeds, storing `+flag` as a regular placeholder with no
default instead of failing. -/
theorem c5_bare_toggle_accepted :
    (∀ key value st, (check_toggle_errors key value st).toggles_without_values =
      st.toggles_without_values) ∧
    (defineScan (str "{+flag}")).1.toggles_without_values = [] ∧
    print_errors (defineScan (str "{+flag}")).1 = false ∧
    define (str "x") (str "{+flag}") true [] =
      (0, [(str "x", defineDict (str "{+flag}"))], true) ∧
    dget (str "+flag") (defineDict (str "{+flag}")).args = some none := by
  refine ⟨?_, by decide, by decide, by decide, by decide⟩
  intro key value st
  unfold check_toggle_errors ctStep3 ctStep2 ctStep1 addNonAlphanum addToggleDup
    addMultiToggle
  simp only [Option.isSome_some, if_true]
  split <;> first
    | rfl
    | (split <;> first
        | rfl
        | (split <;> first
            | rfl
            | (split <;> rfl)))

/-! ## Claim C10: the chaintool-env op behaviour -/

/-- C10 counterexample: with arguments `["X=5", "=bad"]` the second
argument fails to parse, so `envtool` returns status 1 without processing
any op: the valid op `X=5` is not appended even though no run argument
assigns `X`. -/
theorem c10_counterexample :
    envtool [str "X=5", str "=bad"] [] = some (1, []) ∧
    envStepSpec [] (str "X", str "5") = [str "X=5"] ∧
    ([] : List Str) ≠ [str "X=5"] := by
  decide

theorem envScanSet_eq_any (dst : Str) (ra : List Str)
    (h : ∀ a ∈ ra, a ≠ []) :
    envScanSet ra dst = some (ra.any (assignsName dst)) := by
  induction ra with
  | nil => rfl
  | cons a rest ih =>
    have hrest : ∀ x ∈ rest, x ≠ [] := fun x hx => h x (List.mem_cons_of_mem _ hx)
    cases a with
    | nil => exact absurd rfl (h [] (List.mem_cons_self _ _))
    | cons c t =>
      show (if c = '+' then envScanSet rest dst
        else if beforeFirst '=' (c :: t) = dst then some true
        else envScanSet rest dst) = _
      by_cases hc : c = '+'
      · rw [if_pos hc, ih hrest]
        simp [List.any_cons, assignsName, hc]
      · by_cases hb : beforeFirst '=' (c :: t) = dst
        · rw [if_neg hc, if_pos hb]
          simp [List.any_cons, assignsName, hc, hb]
        · rw [if_neg hc, if_neg hb, ih hrest]
          simp [List.any_cons, assignsName, hc, hb]

theorem envLoop_eq_fold (ops : List (Str × Str)) (ra : List Str)
    (h : ∀ a ∈ ra, a ≠ []) :
    envLoop ops ra = some (List.foldl envStepSpec ra ops) := by
  induction ops generalizing ra with
  | nil => rfl
  | cons op rest ih =>
    obtain ⟨dst, src⟩ := op
    show (match envScanSet ra dst with
      | none => none
      | some true => envLoop rest ra
      | some false => envLoop rest (ra ++ [dst ++ '=' :: src])) = _
    rw [envScanSet_eq_any dst ra h]
    cases hany : ra.any (assignsName dst) with
    | true =>
      rw [ih ra h]
      simp [List.foldl_cons, envStepSpec, hany]
    | false =>
      have h' : ∀ a ∈ ra ++ [dst ++ '=' :: src], a ≠ [] := by
        intro a ha
        rw [List.mem_append] at ha
        cases ha with
        | inl ha => exact h a ha
        | inr ha =>
          rw [List.mem_singleton] at ha
          subst ha
          cases dst <;> simp
      rw [ih _ h']
      simp [List.foldl_cons, envStepSpec, hany]

/-- C10 (amended): provided every chaintool-env argument parses as
`name=value` with a valid name (otherwise the invocation fails with status
1 and leaves the run-args list unchanged) and every run argument is
non-empty (an empty one makes the scan raise), `envtool` returns status 0
and processes the ops left to right, each op leaving the list unchanged
when some non-toggle run argument already assigns its name and otherwise
appending exactly `name=value` at the end (`envStepSpec`). -/
theorem c10_env_ops_fold (env_args run_args : List Str)
    (hops : ∀ a ∈ env_args, (envOpMatch a).isSome = true)
    (hra : ∀ a ∈ run_args, a ≠ []) :
    envtool env_args run_args =
      some (0, List.foldl envStepSpec run_args
        ((env_args.map envOpMatch).filterMap id)) := by
  unfold envtool
  have hnone : ¬ (none ∈ env_args.map envOpMatch) := by
    intro hmem
    rw [List.mem_map] at hmem
    obtain ⟨a, ha, hval⟩ := hmem
    have := hops a ha
    rw [hval] at this
    exact absurd this (by decide)
  rw [if_neg hnone, envLoop_eq_fold _ _ hra]
  rfl

/-- Witness for C10 at a concrete input. -/
theorem c10_env_ops_fold_witness :
    (∀ a ∈ [str "X=5"], (envOpMatch a).isSome = true) ∧
    (∀ a ∈ [str "Y=3"], a ≠ []) ∧
    envtool [str "X=5"] [str "Y=3"] =
      some (0, List.foldl envStepSpec [str "Y=3"]
        (([str "X=5"].map envOpMatch).filterMap id)) :=
  ⟨by decide, by decide,
    c10_env_ops_fold [str "X=5"] [str "Y=3"] (by decide) (by decide)⟩

/-! ## Scan machinery: the define scan as a fold over tokens -/

theorem mem_sadd (x y : Str) (s : List Str) (h : x ∈ s) : x ∈ sadd y s := by
  unfold sadd
  split
  · exact h
  · exact List.mem_append_left _ h

theorem mem_sadd_self (x : Str) (s : List Str) : x ∈ sadd x s := by
  unfold sadd
  split
  · assumption
  · exact List.mem_append_right _ (by simp)

theorem processAux_state {σ : Type} (h : σ → Str → σ × Str) (input : Str) :
    ∀ (ph fmt : Str) (prev : Option Char) (st : σ),
      (processAux h input ph fmt prev st).1 =
        List.foldl (fun s t => (h s t).1) st (tokensAux input ph prev) := by
  induction input with
  | nil => intro ph fmt prev st; rfl
  | cons c rest ih =>
    intro ph fmt prev st
    unfold processAux tokensAux
    by_cases h1 : ph = []
    · rw [if_pos h1, if_pos h1]
      by_cases h2 : prev = some '{' ∧ ¬(c = '{' ∨ c = '}')
      · rw [if_pos h2, if_pos h2]
        exact ih _ _ _ _
      · rw [if_neg h2, if_neg h2]
        exact ih _ _ _ _
    · rw [if_neg h1, if_neg h1]
      by_cases h2 : c = '}' ∧ prev ≠ some '}'
      · rw [if_pos h2, if_pos h2]
        cases hh : h st ph with
        | mk st2 rep =>
          rw [List.foldl_cons, ih _ _ _ _]
          have : (h st ph).1 = st2 := by rw [hh]
          rw [this]
      · rw [if_neg h2, if_neg h2]
        exact ih _ _ _ _

theorem defineScan_state (T : Str) :
    (defineScan T).1 =
      List.foldl (fun s t => (handle_set_placeholder s t).1) ScanSt.initial
        (cmdTokens T) :=
  processAux_state handle_set_placeholder T [] [] none ScanSt.initial

/-! ### Effect of the error-check steps on the scan state -/

theorem ct_values (key : Str) (value : TglVal) (st : ScanSt) :
    (check_toggle_errors key value st).values = st.values := by
  unfold check_toggle_errors ctStep3 ctStep2 ctStep1 addNonAlphanum
    addToggleDup addMultiToggle addTogglesNoVal
  repeat' split
  all_goals rfl

theorem ct_toggles (key : Str) (value : TglVal) (st : ScanSt) :
    (check_toggle_errors key value st).toggles = st.toggles := by
  unfold check_toggle_errors ctStep3 ctStep2 ctStep1 addNonAlphanum
    addToggleDup addMultiToggle addTogglesNoVal
  repeat' split
  all_goals rfl

theorem ct_modifiers (key : Str) (value : TglVal) (st : ScanSt) :
    (check_toggle_errors key value st).modifiers = st.modifiers := by
  unfold check_toggle_errors ctStep3 ctStep2 ctStep1 addNonAlphanum
    addToggleDup addMultiToggle addTogglesNoVal
  repeat' split
  all_goals rfl

theorem ct_multiValue (key : Str) (value : TglVal) (st : ScanSt) :
    (check_toggle_errors key value st).multi_value_names =
      st.multi_value_names := by
  unfold check_toggle_errors ctStep3 ctStep2 ctStep1 addNonAlphanum
    addToggleDup addMultiToggle addTogglesNoVal
  repeat' split
  all_goals rfl

theorem ct_multiToggle_mono (key : Str) (value : TglVal) (st : ScanSt)
    (x : Str) (h : x ∈ st.multi_togglevalue_names) :
    x ∈ (check_toggle_errors key value st).multi_togglevalue_names := by
  unfold check_toggle_errors ctStep3 ctStep2 ctStep1 addNonAlphanum
    addToggleDup addMultiToggle addTogglesNoVal
  repeat' split
  all_goals first | exact h | exact mem_sadd _ _ _ h

theorem tglEq_pair (pr : Str × Str) (a b : Str) :
    tglEq pr (TglVal.pair a b) = true ↔ pr = (a, b) := by
  cases pr with
  | mk x y =>
    simp [tglEq, Prod.mk.injEq]

theorem ct_multiToggle_detect (key : Str) (value : TglVal) (st : ScanSt)
    (pr : Str × Str) (hst : dget key st.toggles = some pr)
    (hne : tglEq pr value = false) :
    key ∈ (check_toggle_errors key value st).multi_togglevalue_names := by
  unfold check_toggle_errors ctStep3
  simp only [Option.isSome_some, if_true]
  have htg : (ctStep2 key (ctStep1 key st)).toggles = st.toggles := by
    unfold ctStep2 ctStep1 addNonAlphanum addToggleDup
    split <;> split <;> rfl
  simp only [htg, hst, hne, Bool.false_eq_true, if_false]
  exact mem_sadd_self _ _

theorem cp_values (key : Str) (mods : List Str) (value : Option Str)
    (st : ScanSt) :
    (check_placeholder_errors key mods value st).values = st.values := by
  unfold check_placeholder_errors
  split
  · exact ct_values _ _ _
  · unfold cpStep4 cpStep3 cpStep2 cpStep1 addNonAlphanum addInvalidMod
      addToggleDup addMultiValue
    repeat' split
    all_goals rfl

theorem cp_toggles (key : Str) (mods : List Str) (value : Option Str)
    (st : ScanSt) :
    (check_placeholder_errors key mods value st).toggles = st.toggles := by
  unfold check_placeholder_errors
  split
  · exact ct_toggles _ _ _
  · unfold cpStep4 cpStep3 cpStep2 cpStep1 addNonAlphanum addInvalidMod
      addToggleDup addMultiValue
    repeat' split
    all_goals rfl

theorem cp_modifiers (key : Str) (mods : List Str) (value : Option Str)
    (st : ScanSt) :
    (check_placeholder_errors key mods value st).modifiers = st.modifiers := by
  unfold check_placeholder_errors
  split
  · exact ct_modifiers _ _ _
  · unfold cpStep4 cpStep3 cpStep2 cpStep1 addNonAlphanum addInvalidMod
      addToggleDup addMultiValue
    repeat' split
    all_goals rfl

theorem cp_multiValue_mono (key : Str) (mods : List Str) (value : Option Str)
    (st : ScanSt) (x : Str) (h : x ∈ st.multi_value_names) :
    x ∈ (check_placeholder_errors key mods value st).multi_value_names := by
  unfold check_placeholder_errors
  split
  · rw [ct_multiValue]
    exact h
  · unfold cpStep4 cpStep3 cpStep2 cpStep1 addNonAlphanum addInvalidMod
      addToggleDup addMultiValue
    repeat' split
    all_goals first | exact h | exact mem_sadd _ _ _ h

theorem cp_multiToggle_mono (key : Str) (mods : List Str) (value : Option Str)
    (st : ScanSt) (x : Str) (h : x ∈ st.multi_togglevalue_names) :
    x ∈ (check_placeholder_errors key mods value st).multi_togglevalue_names := by
  unfold check_placeholder_errors
  split
  · exact ct_multiToggle_mono _ _ _ _ h
  · unfold cpStep4 cpStep3 cpStep2 cpStep1 addNonAlphanum addInvalidMod
      addToggleDup addMultiValue
    repeat' split
    all_goals exact h

theorem cp_multiValue_detect (key : Str) (mods : List Str) (w : Option Str)
    (st : ScanSt) (hq : key.head? ≠ some '+') (v : Option Str)
    (hv : dget key st.values = some v) (hne : v ≠ w) :
    key ∈ (check_placeholder_errors key mods w st).multi_value_names := by
  unfold check_placeholder_errors
  split
  · simp at hq
  · have hval : (cpStep3 key (cpStep2 key mods (cpStep1 key st))).values =
        st.values := by
      unfold cpStep3 cpStep2 cpStep1 addNonAlphanum addInvalidMod addToggleDup
      split <;> split <;> split <;> rfl
    unfold cpStep4
    simp only [hval, hv, if_neg hne]
    exact mem_sadd_self _ _


/-! ### `PLACEHOLDER_RE` keys never start with a plus -/

theorem pmAttempt_key_head (p r : Str) (res : Str × Str × Option Str)
    (h : pmAttempt p r = some res) : res.2.1.head? ≠ some '+' := by
  cases r with
  | nil => exact absurd h (by simp [pmAttempt])
  | cons c t =>
    simp only [pmAttempt] at h
    by_cases hc : c = '+'
    · rw [if_pos hc] at h
      exact absurd h (by simp)
    · rw [if_neg hc] at h
      split at h
      · simp only [Option.some.injEq] at h
        subst h
        simp [hc]
      · split at h
        · simp only [Option.some.injEq] at h
          subst h
          simp [hc]
        · exact absurd h (by simp)

theorem pmFirst_key_head (cands : List (Str × Str)) (res : Str × Str × Option Str)
    (h : pmFirst cands = some res) : res.2.1.head? ≠ some '+' := by
  induction cands with
  | nil => exact absurd h (by simp [pmFirst])
  | cons pr rest ih =>
    obtain ⟨p, r⟩ := pr
    unfold pmFirst at h
    cases ha : pmAttempt p r with
    | some res2 =>
      rw [ha] at h
      simp only [Option.some.injEq] at h
      subst h
      exact pmAttempt_key_head p r _ ha
    | none =>
      rw [ha] at h
      exact ih h

theorem placeholderMatch_key_head (s : Str) (res : Str × Str × Option Str)
    (h : placeholderMatch s = some res) : res.2.1.head? ≠ some '+' := by
  unfold placeholderMatch at h
  cases hb : pmBlocks s with
  | mk bs rem =>
    rw [hb] at h
    exact pmFirst_key_head _ _ h

theorem tokenPlainKV_plus (t p : Str) (v : Option Str)
    (h : tokenPlainKV t = some (p, v)) (hp : p.head? = some '+') : v = none := by
  unfold tokenPlainKV at h
  cases htm : toggleMatch t with
  | some r =>
    rw [htm] at h
    exact absurd h (by simp)
  | none =>
    rw [htm] at h
    cases hpm : placeholderMatch t with
    | none =>
      rw [hpm] at h
      simp only [Option.some.injEq, Prod.mk.injEq] at h
      exact h.2.symm
    | some r =>
      obtain ⟨pre, k, vv⟩ := r
      rw [hpm] at h
      simp only [Option.some.injEq, Prod.mk.injEq] at h
      have hkh := placeholderMatch_key_head t (pre, k, vv) hpm
      exact absurd (show k.head? = some '+' from h.1 ▸ hp) hkh

/-! ### Effect of one `handle_set_placeholder` step -/

theorem step_values_toggle (st : ScanSt) (t : Str) (r : Str × Str × Str)
    (htm : toggleMatch t = some r) :
    (handle_set_placeholder st t).1.values = st.values := by
  obtain ⟨key, g2, g3⟩ := r
  simp only [handle_set_placeholder, htm]
  rw [ct_values]

theorem step_plain0_values (st : ScanSt) (t : Str)
    (htm : toggleMatch t = none) (hpm : placeholderMatch t = none) :
    (handle_set_placeholder st t).1.values = dset t none st.values := by
  simp only [handle_set_placeholder, htm, hpm]
  repeat' split
  all_goals rw [cp_values]

theorem step_plain1_values (st : ScanSt) (t pre k : Str) (vv : Option Str)
    (htm : toggleMatch t = none)
    (hpm : placeholderMatch t = some (pre, k, vv)) :
    (handle_set_placeholder st t).1.values =
      dset k (vv.map collapse_literal_braces) st.values := by
  simp only [handle_set_placeholder, htm, hpm]
  repeat' split
  all_goals rw [cp_values]

theorem step_values_kv (st : ScanSt) (t q : Str) (w : Option Str)
    (hkv : tokenPlainKV t = some (q, w)) :
    (handle_set_placeholder st t).1.values = dset q w st.values := by
  unfold tokenPlainKV at hkv
  cases htm : toggleMatch t with
  | some r =>
    rw [htm] at hkv
    exact absurd hkv (by simp)
  | none =>
    rw [htm] at hkv
    cases hpm : placeholderMatch t with
    | none =>
      rw [hpm] at hkv
      simp only [Option.some.injEq, Prod.mk.injEq] at hkv
      obtain ⟨hq, hw⟩ := hkv
      subst hq
      subst hw
      exact step_plain0_values st t htm hpm
    | some r =>
      obtain ⟨pre, k, vv⟩ := r
      rw [hpm] at hkv
      simp only [Option.some.injEq, Prod.mk.injEq] at hkv
      obtain ⟨hq, hw⟩ := hkv
      subst hq
      subst hw
      exact step_plain1_values st t pre k vv htm hpm

theorem step_multiValue_mono (st : ScanSt) (t x : Str)
    (h : x ∈ st.multi_value_names) :
    x ∈ (handle_set_placeholder st t).1.multi_value_names := by
  cases htm : toggleMatch t with
  | some r =>
    obtain ⟨key, g2, g3⟩ := r
    simp only [handle_set_placeholder, htm]
    rw [ct_multiValue]
    exact h
  | none =>
    cases hpm : placeholderMatch t with
    | none =>
      simp only [handle_set_placeholder, htm, hpm]
      repeat' split
      all_goals exact cp_multiValue_mono _ _ _ _ _ h
    | some r =>
      obtain ⟨pre, k, vv⟩ := r
      simp only [handle_set_placeholder, htm, hpm]
      repeat' split
      all_goals exact cp_multiValue_mono _ _ _ _ _ h

theorem step_multiValue_detect (st : ScanSt) (t p : Str) (w : Option Str)
    (hkv : tokenPlainKV t = some (p, w)) (hp : p.head? ≠ some '+')
    (v : Option Str) (hv : dget p st.values = some v) (hne : v ≠ w) :
    p ∈ (handle_set_placeholder st t).1.multi_value_names := by
  unfold tokenPlainKV at hkv
  cases htm : toggleMatch t with
  | some r =>
    rw [htm] at hkv
    exact absurd hkv (by simp)
  | none =>
    rw [htm] at hkv
    cases hpm : placeholderMatch t with
    | none =>
      rw [hpm] at hkv
      simp only [Option.some.injEq, Prod.mk.injEq] at hkv
      obtain ⟨hq, hw⟩ := hkv
      subst hq
      subst hw
      simp only [handle_set_placeholder, htm, hpm]
      repeat' split
      all_goals exact cp_multiValue_detect _ _ _ _ hp _ hv hne
    | some r =>
      obtain ⟨pre, k, vv⟩ := r
      rw [hpm] at hkv
      simp only [Option.some.injEq, Prod.mk.injEq] at hkv
      obtain ⟨hq, hw⟩ := hkv
      subst hq
      subst hw
      simp only [handle_set_placeholder, htm, hpm]
      repeat' split
      all_goals exact cp_multiValue_detect _ _ _ _ hp _ hv hne

/-! ### The scan fold: monotonicity and stability -/

theorem fold_multiValue_mono (L : List Str) :
    ∀ (st : ScanSt) (x : Str), x ∈ st.multi_value_names →
      x ∈ (List.foldl (fun s t => (handle_set_placeholder s t).1)
            st L).multi_value_names := by
  induction L with
  | nil =>
    intro st x h
    exact h
  | cons t rest ih =>
    intro st x h
    rw [List.foldl_cons]
    exact ih _ _ (step_multiValue_mono _ _ _ h)

theorem fold_values_stable (L : List Str) :
    ∀ (st : ScanSt) (p : Str) (v : Option Str), p.head? ≠ some '+' →
      dget p st.values = some v →
      p ∉ (List.foldl (fun s t => (handle_set_placeholder s t).1)
            st L).multi_value_names →
      dget p (List.foldl (fun s t => (handle_set_placeholder s t).1)
            st L).values = some v := by
  induction L with
  | nil =>
    intro st p v _ hv _
    exact hv
  | cons t rest ih =>
    intro st p v hp hv hnm
    rw [List.foldl_cons] at hnm ⊢
    cases htm : toggleMatch t with
    | some r =>
      refine ih _ _ _ hp ?_ hnm
      rw [step_values_toggle st t r htm]
      exact hv
    | none =>
      cases hpm : placeholderMatch t with
      | none =>
        by_cases hq : t = p
        · subst hq
          by_cases hvn : v = none
          · refine ih _ _ _ hp ?_ hnm
            rw [step_plain0_values st t htm hpm, hvn]
            exact dget_dset_self _ _ _
          · exact absurd (fold_multiValue_mono rest _ _
              (step_multiValue_detect st t t none
                (by simp [tokenPlainKV, htm, hpm]) hp v hv hvn)) hnm
        · refine ih _ _ _ hp ?_ hnm
          rw [step_plain0_values st t htm hpm,
            dget_dset_ne t p none st.values (fun hh => hq hh.symm)]
          exact hv
      | some r =>
        obtain ⟨pre, k, vv⟩ := r
        by_cases hq : k = p
        · subst hq
          by_cases hvn : v = vv.map collapse_literal_braces
          · refine ih _ _ _ hp ?_ hnm
            rw [step_plain1_values st t pre k vv htm hpm, hvn]
            exact dget_dset_self _ _ _
          · exact absurd (fold_multiValue_mono rest _ _
              (step_multiValue_detect st t k (vv.map collapse_literal_braces)
                (by simp [tokenPlainKV, htm, hpm]) hp v hv hvn)) hnm
        · refine ih _ _ _ hp ?_ hnm
          rw [step_plain1_values st t pre k vv htm hpm,
            dget_dset_ne k p _ st.values (fun hh => hq hh.symm)]
          exact hv

/-! ### Two plain occurrences of one key with differing defaults -/

theorem defineScan_multiValue_of_two (T : Str) (i j : Nat) (ti tj p : Str)
    (v1 v2 : Option Str) (hij : i < j)
    (hti : (cmdTokens T)[i]? = some ti) (htj : (cmdTokens T)[j]? = some tj)
    (h1 : tokenPlainKV ti = some (p, v1)) (h2 : tokenPlainKV tj = some (p, v2))
    (hne : v1 ≠ v2) :
    p ∈ (defineScan T).1.multi_value_names := by
  by_cases hp : p.head? = some '+'
  · exact absurd ((tokenPlainKV_plus ti p v1 h1 hp).trans
      (tokenPlainKV_plus tj p v2 h2 hp).symm) hne
  · rw [defineScan_state]
    obtain ⟨hil, hgi⟩ := List.getElem?_eq_some.mp hti
    have hdec : cmdTokens T =
        (cmdTokens T).take i ++ ti :: (cmdTokens T).drop (i + 1) := by
      conv_lhs => rw [← List.take_append_drop i (cmdTokens T)]
      rw [List.drop_eq_getElem_cons hil, hgi]
    have hdj : ((cmdTokens T).drop (i + 1))[j - i - 1]? = some tj := by
      rw [List.getElem?_drop]
      have he : i + 1 + (j - i - 1) = j := by omega
      rw [he]
      exact htj
    obtain ⟨hjl, hgj⟩ := List.getElem?_eq_some.mp hdj
    have hdec2 : (cmdTokens T).drop (i + 1) =
        ((cmdTokens T).drop (i + 1)).take (j - i - 1) ++
          tj :: ((cmdTokens T).drop (i + 1)).drop (j - i - 1 + 1) := by
      conv_lhs => rw [← List.take_append_drop (j - i - 1)
        ((cmdTokens T).drop (i + 1))]
      rw [List.drop_eq_getElem_cons hjl, hgj]
    rw [hdec, List.foldl_append, List.foldl_cons, hdec2, List.foldl_append,
      List.foldl_cons]
    by_cases hmem : p ∈ (List.foldl (fun s t => (handle_set_placeholder s t).1)
        (handle_set_placeholder (List.foldl
          (fun s t => (handle_set_placeholder s t).1) ScanSt.initial
          ((cmdTokens T).take i)) ti).1
        (((cmdTokens T).drop (i + 1)).take (j - i - 1))).multi_value_names
    · exact fold_multiValue_mono _ _ _ (step_multiValue_mono _ _ _ hmem)
    · have hv1 : dget p (handle_set_placeholder (List.foldl
          (fun s t => (handle_set_placeholder s t).1) ScanSt.initial
          ((cmdTokens T).take i)) ti).1.values = some v1 := by
        rw [step_values_kv _ ti p v1 h1]
        exact dget_dset_self _ _ _
      have hstab := fold_values_stable
        (((cmdTokens T).drop (i + 1)).take (j - i - 1)) _ p v1 hp hv1 hmem
      exact fold_multiValue_mono _ _ _
        (step_multiValue_detect _ tj p v2 h2 hp v1 hstab hne)

/-! ### `define` fails whenever the scan reports errors -/

theorem define_fails_of_errors (cmd T : Str) (ow : Bool) (store : CmdStore)
    (h : print_errors (defineScan T).1 = true) :
    define cmd T ow store = (1, store, false) := by
  unfold define
  split
  · rfl
  · split
    · rfl
    · cases hd : defineScan T with
      | mk st fmt =>
        simp only [hd] at h ⊢
        rw [if_pos h]

theorem print_errors_of_multiValue (st : ScanSt)
    (h : st.multi_value_names ≠ []) : print_errors st = true := by
  simp [print_errors, h]

theorem mem_filterChunk {α : Type} (p : Prop) [Decidable p] (a x : α) :
    a ∈ (if p then [x] else []) ↔ p ∧ a = x := by
  split
  · rename_i hp
    simp [hp]
  · rename_i hp
    simp [hp]

/-- C3: if the scan of a template accumulates any validation violation,
`define` exits with status 1 and writes nothing (the store is unchanged);
every non-empty violation category (and only those) appears in the report
produced by `print_errors`; and a template in which a placeholder `p`
occurs twice as a plain placeholder with differing default values puts `p`
in the multiple-defaults category and makes `define` fail with no write. -/
theorem c3_define_rejects_and_reports :
    (∀ (cmd T : Str) (ow : Bool) (store : CmdStore),
        print_errors (defineScan T).1 = true →
        define cmd T ow store = (1, store, false)) ∧
    (∀ st : ScanSt,
        (st.non_alphanum_names ≠ [] ↔
          (ErrCat.nonAlphanum, st.non_alphanum_names) ∈ reportedErrors st) ∧
        (st.invalid_modifiers ≠ [] ↔
          (ErrCat.invalidMod, st.invalid_modifiers) ∈ reportedErrors st) ∧
        (st.multi_value_names ≠ [] ↔
          (ErrCat.multiValue, st.multi_value_names) ∈ reportedErrors st) ∧
        (st.multi_togglevalue_names ≠ [] ↔
          (ErrCat.multiToggle, st.multi_togglevalue_names) ∈ reportedErrors st) ∧
        (st.toggles_without_values ≠ [] ↔
          (ErrCat.togglesNoVal, st.toggles_without_values) ∈ reportedErrors st) ∧
        (st.toggle_dup_names ≠ [] ↔
          (ErrCat.toggleDup, st.toggle_dup_names) ∈ reportedErrors st)) ∧
    (∀ (T : Str) (i j : Nat) (ti tj p : Str) (v1 v2 : Option Str),
        i < j →
        (cmdTokens T)[i]? = some ti → (cmdTokens T)[j]? = some tj →
        tokenPlainKV ti = some (p, v1) → tokenPlainKV tj = some (p, v2) →
        v1 ≠ v2 →
        p ∈ (defineScan T).1.multi_value_names ∧
        ∀ (cmd : Str) (ow : Bool) (store : CmdStore),
          define cmd T ow store = (1, store, false)) := by
  refine ⟨define_fails_of_errors, ?_, ?_⟩
  · intro st
    refine ⟨?_, ?_, ?_, ?_, ?_, ?_⟩ <;>
      simp [reportedErrors, mem_filterChunk]
  · intro T i j ti tj p v1 v2 hij hti htj h1 h2 hne
    have hmv := defineScan_multiValue_of_two T i j ti tj p v1 v2 hij hti htj
      h1 h2 hne
    refine ⟨hmv, ?_⟩
    intro cmd ow store
    exact define_fails_of_errors cmd T ow store
      (print_errors_of_multiValue _ (List.ne_nil_of_mem hmv))

/-- Witness for C3 at the template `{p=v} {p=w}`. -/
theorem c3_define_rejects_and_reports_witness :
    str "p" ∈ (defineScan (str "{p=v} {p=w}")).1.multi_value_names ∧
    define (str "c") (str "{p=v} {p=w}") false [] = (1, [], false) := by
  have h := c3_define_rejects_and_reports.2.2 (str "{p=v} {p=w}") 0 1
    (str "p=v") (str "p=w") (str "p") (some (str "v")) (some (str "w"))
    (by decide) (by decide) (by decide) (by decide) (by decide) (by decide)
  exact ⟨h.1, h.2 (str "c") false []⟩


/-! ### Shape facts for plain `name=value` run arguments -/

theorem isNameChar_excl (c : Char) (h : isNameChar c = true) :
    c ≠ '/' ∧ c ≠ '+' ∧ c ≠ '=' := by
  refine ⟨?_, ?_, ?_⟩ <;> intro hc <;> rw [hc] at h <;> exact absurd h (by decide)

theorem isNameStart_isNameChar (c : Char) (h : isNameStart c = true) :
    isNameChar c = true := by
  simp [isNameChar, h]

theorem isNameStart_ne_plus (c : Char) (h : isNameStart c = true) : c ≠ '+' := by
  intro hc
  rw [hc] at h
  exact absurd h (by decide)

theorem alphanumShape_elim (n : Str) (h : alphanumShape n = true) :
    ∃ c t, n = c :: t ∧ isNameStart c = true ∧ ∀ x ∈ t, isNameChar x = true := by
  cases n with
  | nil => exact absurd h (by decide)
  | cons c t =>
    simp only [alphanumShape, Bool.and_eq_true, List.all_eq_true] at h
    exact ⟨c, t, rfl, h.1, h.2⟩

theorem takeWhile_app {α : Type} (p : α → Bool) (xs : List α) (y : α)
    (ys : List α) (hx : ∀ x ∈ xs, p x = true) (hy : p y = false) :
    (xs ++ y :: ys).takeWhile p = xs := by
  induction xs with
  | nil => simp [List.takeWhile_cons, hy]
  | cons x xs ih =>
    have hpx : p x = true := hx x (by simp)
    simp only [List.cons_append, List.takeWhile_cons, hpx, if_true]
    rw [ih (fun z hz => hx z (by simp [hz]))]

theorem dropWhile_app {α : Type} (p : α → Bool) (xs : List α) (y : α)
    (ys : List α) (hx : ∀ x ∈ xs, p x = true) (hy : p y = false) :
    (xs ++ y :: ys).dropWhile p = y :: ys := by
  induction xs with
  | nil => simp [List.dropWhile_cons, hy]
  | cons x xs ih =>
    have hpx : p x = true := hx x (by simp)
    simp only [List.cons_append, List.dropWhile_cons, hpx, if_true]
    exact ih (fun z hz => hx z (by simp [hz]))

theorem dropWhile_eq_of_mem (a : Str) (h : '=' ∈ a) :
    ∃ v, a.dropWhile (fun x => x != '=') = '=' :: v := by
  induction a with
  | nil => simp at h
  | cons c t ih =>
    by_cases hc : c = '='
    · subst hc
      exact ⟨t, by simp [List.dropWhile_cons]⟩
    · have hm : '=' ∈ t := by
        rcases List.mem_cons.mp h with h1 | h1
        · exact absurd h1.symm hc
        · exact h1
      obtain ⟨v, hv⟩ := ih hm
      refine ⟨v, ?_⟩
      rw [List.dropWhile_cons, if_pos (by simp [bne_iff_ne, hc])]
      exact hv

theorem pmBlocksAux_name (n : Str) (hn : ∀ c ∈ n, isNameChar c = true) :
    ∀ (rest cur : Str) (acc : List Str),
      pmBlocksAux (n ++ '=' :: rest) cur acc =
        (acc.reverse, cur.reverse ++ (n ++ '=' :: rest)) := by
  induction n with
  | nil =>
    intro rest cur acc
    rw [List.nil_append]
    unfold pmBlocksAux
    rw [if_neg (by decide), if_pos (by decide)]
  | cons c n ih =>
    intro rest cur acc
    have hc := isNameChar_excl c (hn c (by simp))
    rw [List.cons_append]
    unfold pmBlocksAux
    rw [if_neg hc.1, if_neg (by simp [hc.2.1, hc.2.2])]
    rw [ih (fun x hx => hn x (by simp [hx])) rest (c :: cur) acc]
    simp

/-- Decomposition of an argument that looks like `name=value`: the regexes
of the update loop either reject it or parse it as a bare placeholder
assignment with the text before the first `=` as key. -/
theorem assign_shape (a : Str) (h1 : alphanumShape (beforeFirst '=' a) = true)
    (h2 : '=' ∈ a) :
    ∃ c t, a = c :: t ∧ isNameStart c = true ∧ c ≠ '+' ∧
      toggleMatch a = none ∧
      (placeholderMatch a = none ∨
        ∃ v, placeholderMatch a = some ([], beforeFirst '=' a, some v)) := by
  obtain ⟨v0, hdw⟩ := dropWhile_eq_of_mem a h2
  have hdec : a = beforeFirst '=' a ++ '=' :: v0 := by
    conv_lhs => rw [← List.takeWhile_append_dropWhile (fun x => x != '=') a]
    rw [hdw]
    rfl
  obtain ⟨c, t0, hn, hns, hnc⟩ := alphanumShape_elim _ h1
  have hnall : ∀ x ∈ beforeFirst '=' a, isNameChar x = true := by
    rw [hn]
    intro x hx
    rcases List.mem_cons.mp hx with h | h
    · rw [h]
      exact isNameStart_isNameChar c hns
    · exact hnc x h
  have hcp : c ≠ '+' := isNameStart_ne_plus c hns
  have hshape : a = c :: (t0 ++ '=' :: v0) := by
    rw [hdec, hn, List.cons_append]
  refine ⟨c, t0 ++ '=' :: v0, hshape, hns, hcp, ?_, ?_⟩
  · rw [hshape]
    unfold toggleMatch
    split
    · rename_i t2 heq
      injection heq with hx1 hx2
      exact absurd hx1 hcp
    · rfl
  · have hblocks : pmBlocks a = ([], a) := by
      unfold pmBlocks
      conv_lhs => rw [hdec]
      rw [pmBlocksAux_name _ hnall v0 [] []]
      rw [← hdec]
      rfl
    have htw : (t0 ++ '=' :: v0).takeWhile (fun x => x != '=') = t0 := by
      refine takeWhile_app _ _ _ _ ?_ (by decide)
      intro x hx
      have := isNameChar_excl x (hnc x hx)
      simp [bne_iff_ne, this.2.2]
    have hdw2 : (t0 ++ '=' :: v0).dropWhile (fun x => x != '=') = '=' :: v0 := by
      refine dropWhile_app _ _ _ _ ?_ (by decide)
      intro x hx
      have := isNameChar_excl x (hnc x hx)
      simp [bne_iff_ne, this.2.2]
    have hatt : pmAttempt [] a =
        match dollarValue v0 with
        | some g3 => some ([], beforeFirst '=' a, some g3)
        | none => none := by
      conv_lhs => rw [hshape]
      simp only [pmAttempt]
      rw [if_neg hcp, htw, hdw2, hn]
    have hpmv : placeholderMatch a =
        match dollarValue v0 with
        | some g3 => some ([], beforeFirst '=' a, some g3)
        | none => none := by
      unfold placeholderMatch
      rw [hblocks]
      show pmFirst [([], a)] = _
      unfold pmFirst
      rw [hatt]
      cases hdv : dollarValue v0 with
      | none => rfl
      | some g3 => rfl
    rw [hpmv]
    cases hdv : dollarValue v0 with
    | none => exact Or.inl rfl
    | some g3 => exact Or.inr ⟨g3, rfl⟩

/-! ### The runtime update loop ignores assignments to other names -/

theorem updRuntimeLoop_cons_eq (valid : List Str) (tgls : Dyct (Str × Str))
    (a : Str) (rest : List Str) (values : Dyct (Option Str))
    (unact unused : List Str) :
    updRuntimeLoop valid tgls (a :: rest) values unact unused =
      match toggleMatch a with
      | some _ => none
      | none =>
        match a with
        | [] => none
        | c :: _ =>
          if c = '+' then
            match dget a tgls with
            | some tv =>
              updRuntimeLoop valid tgls rest (dset a (some tv.2) values)
                (remove_if_present a unact) (remove_if_present a unused)
            | none => updRuntimeLoop valid tgls rest values unact unused
          else
            match placeholderMatch a with
            | none => updRuntimeLoop valid tgls rest values unact unused
            | some (pre, key, value) =>
              if pre ≠ [] then none
              else
                match value with
                | none => none
                | some v =>
                  if key ∈ valid then
                    updRuntimeLoop valid tgls rest (dset key (some v) values)
                      unact (remove_if_present a unused)
                  else updRuntimeLoop valid tgls rest values unact unused := rfl

theorem updRuntimeLoop_skip (valid : List Str) (tgls : Dyct (Str × Str))
    (ra : List Str)
    (h : ∀ a ∈ ra, alphanumShape (beforeFirst '=' a) = true ∧ '=' ∈ a ∧
      beforeFirst '=' a ∉ valid) :
    ∀ (rest : List Str) (values : Dyct (Option Str)) (unact unused : List Str),
      updRuntimeLoop valid tgls (ra ++ rest) values unact unused =
        updRuntimeLoop valid tgls rest values unact unused := by
  induction ra with
  | nil =>
    intro rest values unact unused
    rfl
  | cons a ra ih =>
    intro rest values unact unused
    obtain ⟨h1, h2, h3⟩ := h a (by simp)
    obtain ⟨c, t, hct, hns, hcp, htm, hpm⟩ := assign_shape a h1 h2
    subst hct
    rw [List.cons_append, updRuntimeLoop_cons_eq]
    simp only [htm]
    rw [if_neg hcp]
    rcases hpm with hpm | ⟨v, hpm⟩
    · rw [hpm]
      exact ih (fun x hx => h x (by simp [hx])) rest values unact unused
    · rw [hpm]
      have h0 : ¬ (([] : Str) ≠ []) := by simp
      simp only [if_neg h0, if_neg h3]
      exact ih (fun x hx => h x (by simp [hx])) rest values unact unused

/-! ### The env-op scan over assignments to other names -/

theorem envScanSet_skip_all (ra : List Str) (dst : Str)
    (h : ∀ a ∈ ra, a ≠ [] ∧ beforeFirst '=' a ≠ dst) :
    envScanSet ra dst = some false := by
  induction ra with
  | nil => rfl
  | cons a ra ih =>
    obtain ⟨hne, hbf⟩ := h a (by simp)
    cases a with
    | nil => exact absurd rfl hne
    | cons c t =>
      simp only [envScanSet]
      by_cases hc : c = '+'
      · rw [if_pos hc]
        exact ih (fun x hx => h x (by simp [hx]))
      · rw [if_neg hc, if_neg hbf]
        exact ih (fun x hx => h x (by simp [hx]))

theorem remove_if_present_of_not_mem (x : Str) (l : List Str) (h : x ∉ l) :
    remove_if_present x l = l := by
  unfold remove_if_present
  rw [if_neg h]

/-! ### Sequence-run step and prefix lemmas -/

theorem seq_run_aux_cons_ok (store : CmdStore) (ext : Str → Nat)
    (skip : List Str) (ig : Bool) (cmd : Str) (rest args unused : List Str)
    (trace : List (Str × Option Str)) (a2 u2 : List Str) (line : Option Str)
    (h1 : cmd ∉ skip)
    (h2 : cmd_run store ext cmd args unused = some (0, a2, u2, line)) :
    seq_run_aux store ext skip ig (cmd :: rest) args unused trace =
      seq_run_aux store ext skip ig rest a2 u2 (trace ++ [(cmd, line)]) := by
  simp only [seq_run_aux]
  rw [if_neg h1, h2]
  simp only []
  rw [if_neg (by simp)]

/-- C7, part B in standalone form: a sequence prefix runs identically
whatever follows it. -/
theorem seq_run_aux_split (store : CmdStore) (ext : Str → Nat)
    (skip : List Str) (ig : Bool) (l1 l2 : List Str) :
    ∀ (args unused : List Str) (trace : List (Str × Option Str)),
      seq_run_aux store ext skip ig (l1 ++ l2) args unused trace =
        match seq_run_aux store ext skip ig l1 args unused trace with
        | none => none
        | some r =>
          if r.status = 0 then
            seq_run_aux store ext skip ig l2 r.args r.unused r.trace
          else some r := by
  induction l1 with
  | nil =>
    intro args unused trace
    rfl
  | cons cmd rest ih =>
    intro args unused trace
    rw [List.cons_append]
    simp only [seq_run_aux]
    by_cases hsk : cmd ∈ skip
    · rw [if_pos hsk, if_pos hsk]
      exact ih _ _ _
    · rw [if_neg hsk, if_neg hsk]
      cases hcr : cmd_run store ext cmd args unused with
      | none => rfl
      | some q =>
        obtain ⟨st, a2, u2, line⟩ := q
        simp only []
        by_cases hst : st ≠ 0 ∧ ¬ ig
        · rw [if_pos hst, if_pos hst]
          simp [hst.1]
        · rw [if_neg hst, if_neg hst]
          exact ih _ _ _


/-! ### The two-command env-injection scenario -/

theorem c7_scenario (args0 : List Str) (ext : Str → Nat)
    (helem : ∀ a ∈ args0, plainAssignOther (str "X") a = true)
    (hext : ext (str "echo 5") = 0) :
    seq_run
      [(str "c1", defineDict (str "chaintool-env X=5")),
       (str "c2", defineDict (str "echo {X}"))] ext
      [str "c1", str "c2"] args0 [] false =
      some ⟨0, args0 ++ [str "X=5"], args0,
        [(str "c1", some (str "chaintool-env X=5")),
         (str "c2", some (str "echo 5"))]⟩ := by
  have hfacts : ∀ a ∈ args0, alphanumShape (beforeFirst '=' a) = true ∧
      '=' ∈ a ∧ beforeFirst '=' a ≠ str "X" := by
    intro a ha
    have h := helem a ha
    unfold plainAssignOther at h
    simp only [Bool.and_eq_true, decide_eq_true_eq] at h
    refine ⟨h.1.1, ?_, h.2⟩
    simpa using h.1.2
  have hnonemp : ∀ a ∈ args0, a ≠ [] := by
    intro a ha hnil
    have h1 := (hfacts a ha).1
    rw [hnil] at h1
    exact absurd h1 (by decide)
  have hX5 : str "X=5" ∉ args0 := by
    intro hmem
    have := helem _ hmem
    exact absurd this (by decide)
  have hloop1 : updRuntimeLoop [] [] args0 [] [] args0 = some ([], [], args0) := by
    have h2 := updRuntimeLoop_skip [] [] args0
      (fun a ha => ⟨(hfacts a ha).1, (hfacts a ha).2.1, by simp⟩) [] [] [] args0
    rw [List.append_nil] at h2
    exact h2
  have hurv1 : update_runtime_values_from_args [] [] [] args0 args0 =
      some ([], args0) := by
    simp only [update_runtime_values_from_args]
    rw [show dkeys ([] : Dyct (Option Str)) = [] from rfl,
      show dkeys ([] : Dyct (Str × Str)) = [] from rfl]
    rw [hloop1]
    rfl
  have hcwv1 : command_with_values
      [(str "c1", defineDict (str "chaintool-env X=5")),
       (str "c2", defineDict (str "echo {X}"))] (str "c1") args0 args0 true =
      some (defineDict (str "chaintool-env X=5"), args0) := by
    unfold command_with_values
    rw [show dget (str "c1")
        [(str "c1", defineDict (str "chaintool-env X=5")),
         (str "c2", defineDict (str "echo {X}"))] =
      some (defineDict (str "chaintool-env X=5")) from rfl]
    simp only [if_true]
    rw [show (defineDict (str "chaintool-env X=5")).args = [] from rfl,
      show (defineDict (str "chaintool-env X=5")).args_modifiers = [] from rfl,
      show (defineDict (str "chaintool-env X=5")).toggle_args = [] from rfl]
    rw [hurv1]
    rfl
  have hfmt1 : formatApply (defineDict (str "chaintool-env X=5")).format
      (defineDict (str "chaintool-env X=5")).args =
      some (str "chaintool-env X=5") := rfl
  have hdisp1 : dispatch ext (str "chaintool-env X=5") args0 =
      .vtool 0 (args0 ++ [str "X=5"]) := by
    unfold dispatch
    rw [show wordsSplit (str "chaintool-env X=5") =
      [str "chaintool-env", str "X=5"] from rfl]
    simp only []
    rw [if_true]
    unfold envtool
    rw [show ([str "X=5"].map envOpMatch) = [some (str "X", str "5")] from rfl]
    rw [if_neg (by decide)]
    rw [show ([some (str "X", str "5")].filterMap id) =
      [(str "X", str "5")] from rfl]
    unfold envLoop
    rw [envScanSet_skip_all args0 (str "X")
      (fun a ha => ⟨hnonemp a ha, (hfacts a ha).2.2⟩)]
    rfl
  have hrun1 : cmd_run
      [(str "c1", defineDict (str "chaintool-env X=5")),
       (str "c2", defineDict (str "echo {X}"))] ext (str "c1") args0 args0 =
      some (0, args0 ++ [str "X=5"], args0,
        some (str "chaintool-env X=5")) := by
    unfold cmd_run
    rw [hcwv1]
    simp only []
    rw [hfmt1]
    simp only []
    rw [hdisp1]
  have hloop2pre := updRuntimeLoop_skip [str "X"] [] args0
    (fun a ha => ⟨(hfacts a ha).1, (hfacts a ha).2.1, by
      simp only [List.mem_singleton]
      exact (hfacts a ha).2.2⟩) [str "X=5"] [(str "X", none)] [] args0
  have hstep : updRuntimeLoop [str "X"] [] [str "X=5"] [(str "X", none)] []
      args0 = some ([(str "X", some (str "5"))], [],
        remove_if_present (str "X=5") args0) := rfl
  have hrem : remove_if_present (str "X=5") args0 = args0 :=
    remove_if_present_of_not_mem _ _ hX5
  have hloop2 : updRuntimeLoop [str "X"] [] (args0 ++ [str "X=5"])
      [(str "X", none)] [] args0 =
      some ([(str "X", some (str "5"))], [], args0) := by
    rw [hloop2pre, hstep, hrem]
  have hurv2 : update_runtime_values_from_args [(str "X", none)] [] []
      (args0 ++ [str "X=5"]) args0 =
      some ([(str "X", some (str "5"))], args0) := by
    simp only [update_runtime_values_from_args]
    rw [show dkeys [((str "X"), (none : Option Str))] = [str "X"] from rfl,
      show dkeys ([] : Dyct (Str × Str)) = [] from rfl]
    rw [hloop2]
    rfl
  have hcwv2 : command_with_values
      [(str "c1", defineDict (str "chaintool-env X=5")),
       (str "c2", defineDict (str "echo {X}"))] (str "c2")
      (args0 ++ [str "X=5"]) args0 true =
      some ({defineDict (str "echo {X}") with
        args := [(str "X", some (str "5"))]}, args0) := by
    unfold command_with_values
    rw [show dget (str "c2")
        [(str "c1", defineDict (str "chaintool-env X=5")),
         (str "c2", defineDict (str "echo {X}"))] =
      some (defineDict (str "echo {X}")) from rfl]
    simp only [if_true]
    rw [show (defineDict (str "echo {X}")).args =
        [(str "X", (none : Option Str))] from rfl,
      show (defineDict (str "echo {X}")).args_modifiers = [] from rfl,
      show (defineDict (str "echo {X}")).toggle_args = [] from rfl]
    rw [hurv2]
  have hfmt2 : formatApply
      ({defineDict (str "echo {X}") with
        args := [(str "X", some (str "5"))]}).format
      ({defineDict (str "echo {X}") with
        args := [(str "X", some (str "5"))]}).args = some (str "echo 5") := rfl
  have hdisp2 : dispatch ext (str "echo 5") (args0 ++ [str "X=5"]) =
      .noVTool := by
    unfold dispatch
    rw [show wordsSplit (str "echo 5") = [str "echo", str "5"] from rfl]
    simp only []
    rw [if_neg (by decide), if_neg (by decide), if_neg (by decide)]
  have hrun2 : cmd_run
      [(str "c1", defineDict (str "chaintool-env X=5")),
       (str "c2", defineDict (str "echo {X}"))] ext (str "c2")
      (args0 ++ [str "X=5"]) args0 =
      some (0, args0 ++ [str "X=5"], args0, some (str "echo 5")) := by
    unfold cmd_run
    rw [hcwv2]
    simp only []
    rw [hfmt2]
    simp only []
    rw [hdisp2]
    simp only []
    rw [hext]
  unfold seq_run
  rw [seq_run_aux_cons_ok _ _ _ _ _ _ _ _ _ _ _ _ (by simp) hrun1]
  rw [seq_run_aux_cons_ok _ _ _ _ _ _ _ _ _ _ _ _ (by simp) hrun2]
  rfl

/-- C7: in a sequence `[c1, c2]` where `c1`'s stored template is
`chaintool-env X=5` and `c2`'s is `echo {X}`, a run whose arguments are all
plain assignments to other names resolves `c2`'s `{X}` to `5` (the env op
appends `X=5` to the shared run-args list) without any explicit `X=`
argument; and injected arguments only propagate forward: the result of a
sequence prefix is computed before, and independently of, the commands
that follow it. -/
theorem c7_env_injection_forward :
    (∀ (args0 : List Str) (ext : Str → Nat),
        (∀ a ∈ args0, plainAssignOther (str "X") a = true) →
        ext (str "echo 5") = 0 →
        seq_run
          [(str "c1", defineDict (str "chaintool-env X=5")),
           (str "c2", defineDict (str "echo {X}"))] ext
          [str "c1", str "c2"] args0 [] false =
          some ⟨0, args0 ++ [str "X=5"], args0,
            [(str "c1", some (str "chaintool-env X=5")),
             (str "c2", some (str "echo 5"))]⟩) ∧
    (∀ (store : CmdStore) (ext : Str → Nat) (skip : List Str) (ig : Bool)
        (l1 l2 args unused : List Str) (trace : List (Str × Option Str)),
        seq_run_aux store ext skip ig (l1 ++ l2) args unused trace =
          match seq_run_aux store ext skip ig l1 args unused trace with
          | none => none
          | some r =>
            if r.status = 0 then
              seq_run_aux store ext skip ig l2 r.args r.unused r.trace
            else some r) := by
  constructor
  · intro args0 ext helem hext
    exact c7_scenario args0 ext helem hext
  · intro store ext skip ig l1 l2 args unused trace
    exact seq_run_aux_split store ext skip ig l1 l2 args unused trace

/-- Witness for C7 with one unrelated assignment argument. -/
theorem c7_env_injection_forward_witness :
    seq_run
      [(str "c1", defineDict (str "chaintool-env X=5")),
       (str "c2", defineDict (str "echo {X}"))] (fun _ => 0)
      [str "c1", str "c2"] [str "Y=1"] [] false =
      some ⟨0, [str "Y=1"] ++ [str "X=5"], [str "Y=1"],
        [(str "c1", some (str "chaintool-env X=5")),
         (str "c2", some (str "echo 5"))]⟩ ∧
    seq_run_aux [] (fun _ => 0) [] false ([str "a"] ++ []) [] [] [] =
      match seq_run_aux [] (fun _ => 0) [] false [str "a"] [] [] [] with
      | none => none
      | some r =>
        if r.status = 0 then
          seq_run_aux [] (fun _ => 0) [] false [] r.args r.unused r.trace
        else some r := by
  constructor
  · exact c7_env_injection_forward.1 [str "Y=1"] (fun _ => 0) (by decide) rfl
  · exact c7_env_injection_forward.2 [] (fun _ => 0) [] false [str "a"] [] []
      [] []


/-! ### Collapse and explode are the identity on brace-free text -/

theorem collapseOne_id (c : Char) : ∀ (s : Str), c ∉ s → collapseOne c s = s
  | [], _ => rfl
  | [x], _ => rfl
  | x :: y :: rest, h => by
    have hx : ¬ (x = c ∧ y = c) := fun hh => by simp [hh.1] at h
    simp only [collapseOne]
    rw [if_neg hx]
    rw [collapseOne_id c (y :: rest) (fun hm => h (List.mem_cons_of_mem _ hm))]

theorem explodeOne_id (c : Char) : ∀ (s : Str), c ∉ s → explodeOne c s = s
  | [], _ => rfl
  | x :: rest, h => by
    have hx : x ≠ c := fun hh => by simp [hh] at h
    simp only [explodeOne]
    rw [if_neg hx]
    rw [explodeOne_id c rest (fun hm => h (List.mem_cons_of_mem _ hm))]

theorem collapse_literal_braces_id (v : Str) (h : braceFree v) :
    collapse_literal_braces v = v := by
  unfold collapse_literal_braces
  rw [collapseOne_id '{' v (fun hm => (h _ hm).1 rfl)]
  rw [collapseOne_id '}' v (fun hm => (h _ hm).2 rfl)]

theorem explode_literal_braces_id (v : Str) (h : braceFree v) :
    explode_literal_braces v = v := by
  unfold explode_literal_braces
  rw [explodeOne_id '{' v (fun hm => (h _ hm).1 rfl)]
  rw [explodeOne_id '}' v (fun hm => (h _ hm).2 rfl)]

/-! ### Decompositions of successful regex matches -/

theorem dropWhile_head {α : Type} (p : α → Bool) :
    ∀ (l : List α) (x : α) (xs : List α), l.dropWhile p = x :: xs → p x = false
  | [], x, xs, h => by simp at h
  | a :: t, x, xs, h => by
    rw [List.dropWhile_cons] at h
    by_cases ha : p a = true
    · rw [if_pos ha] at h
      exact dropWhile_head p t x xs h
    · rw [if_neg ha] at h
      injection h with h1 h2
      rw [← h1]
      exact Bool.eq_false_iff.mpr ha

theorem toggleMatch_ne_plus (c : Char) (t : Str) (hc : c ≠ '+') :
    toggleMatch (c :: t) = none := by
  unfold toggleMatch
  split
  · rename_i t2 heq
    injection heq with h1 h2
    exact absurd h1 hc
  · rfl

theorem toggleMatch_decomp (tok k g2 g3 : Str)
    (h : toggleMatch tok = some (k, g2, g3)) (hn : '\n' ∉ tok) :
    tok = k ++ '=' :: g2 ++ ':' :: g3 := by
  cases tok with
  | nil => exact absurd h (by simp [toggleMatch])
  | cons c t =>
    by_cases hc : c = '+'
    case neg =>
      rw [toggleMatch_ne_plus c t hc] at h
      exact absurd h (by simp)
    case pos =>
      subst hc
      simp only [toggleMatch] at h
      cases hdw : t.dropWhile (fun x => x != '=') with
      | nil =>
        rw [hdw] at h
        exact absurd h (by simp)
      | cons d after =>
        have hd : d = '=' := by
          have h0 := dropWhile_head _ t d after hdw
          simpa [bne] using h0
        subst hd
        rw [hdw] at h
        simp only [] at h
        have ht : t = t.takeWhile (fun x => x != '=') ++ '=' :: after := by
          conv_lhs => rw [← List.takeWhile_append_dropWhile (fun x => x != '=') t]
          rw [hdw]
        by_cases hg1 : t.takeWhile (fun x => x != '=') = []
        · rw [if_pos hg1] at h
          exact absurd h (by simp)
        · rw [if_neg hg1] at h
          cases hdw2 : after.dropWhile (fun x => x != ':') with
          | nil =>
            rw [hdw2] at h
            exact absurd h (by simp)
          | cons e v =>
            have he : e = ':' := by
              have h0 := dropWhile_head _ after e v hdw2
              simpa [bne] using h0
            subst he
            rw [hdw2] at h
            simp only [] at h
            have hafter : after = after.takeWhile (fun x => x != ':') ++
                ':' :: v := by
              conv_lhs =>
                rw [← List.takeWhile_append_dropWhile (fun x => x != ':') after]
              rw [hdw2]
            have hnv : '\n' ∉ v := fun hm => hn
              (List.mem_cons_of_mem _ (by rw [ht, hafter]; simp [hm]))
            have hdv : dollarValue v = some v := by
              unfold dollarValue
              rw [if_neg hnv]
            rw [hdv] at h
            simp at h
            obtain ⟨hk, hg2v, hg3v⟩ := h
            subst hk
            subst hg2v
            subst hg3v
            conv_lhs => rw [ht]
            conv_lhs => rw [hafter]
            simp

theorem pmAttempt_decomp (p r : Str) (res : Str × Str × Option Str)
    (h : pmAttempt p r = some res) (hn : '\n' ∉ r) :
    res.1 = p ∧
    r = res.2.1 ++ (match res.2.2 with | none => [] | some w => '=' :: w) := by
  cases r with
  | nil => exact absurd h (by simp [pmAttempt])
  | cons c t =>
    simp only [pmAttempt] at h
    by_cases hc : c = '+'
    · rw [if_pos hc] at h
      exact absurd h (by simp)
    · rw [if_neg hc] at h
      cases hdw : t.dropWhile (fun x => x != '=') with
      | nil =>
        rw [hdw] at h
        simp only [Option.some.injEq] at h
        subst h
        refine ⟨rfl, ?_⟩
        have ht : t.takeWhile (fun x => x != '=') = t := by
          conv_rhs => rw [← List.takeWhile_append_dropWhile (fun x => x != '=') t]
          rw [hdw, List.append_nil]
        simp [ht]
      | cons d v =>
        have hd : d = '=' := by
          have h0 := dropWhile_head _ t d v hdw
          simpa [bne] using h0
        subst hd
        rw [hdw] at h
        simp only [] at h
        have ht : t = t.takeWhile (fun x => x != '=') ++ '=' :: v := by
          conv_lhs => rw [← List.takeWhile_append_dropWhile (fun x => x != '=') t]
          rw [hdw]
        have hnv : '\n' ∉ v := fun hm => hn
          (List.mem_cons_of_mem _ (by rw [ht]; simp [hm]))
        have hdv : dollarValue v = some v := by
          unfold dollarValue
          rw [if_neg hnv]
        rw [hdv] at h
        simp only [Option.some.injEq] at h
        subst h
        refine ⟨rfl, ?_⟩
        simp only []
        conv_lhs => rw [show (t : Str) =
          t.takeWhile (fun x => x != '=') ++ '=' :: v from ht]
        rfl

theorem joinBlocks_cons (b : Str) (bs : List Str) :
    joinBlocks (b :: bs) = b ++ '/' :: joinBlocks bs := by
  simp [joinBlocks]

theorem joinBlocks_concat (bs : List Str) (b : Str) :
    joinBlocks (bs ++ [b]) = joinBlocks bs ++ b ++ ['/'] := by
  simp [joinBlocks]

theorem pmBlocksAux_join : ∀ (s cur : Str) (acc : List Str),
    joinBlocks (pmBlocksAux s cur acc).1 ++ (pmBlocksAux s cur acc).2 =
      joinBlocks acc.reverse ++ cur.reverse ++ s
  | [], cur, acc => by simp [pmBlocksAux]
  | c :: rest, cur, acc => by
    simp only [pmBlocksAux]
    by_cases hc : c = '/'
    · rw [if_pos hc]
      by_cases hcur : cur = []
      · rw [if_pos hcur]
        subst hcur
        subst hc
        simp
      · rw [if_neg hcur]
        rw [pmBlocksAux_join rest [] (cur.reverse :: acc)]
        subst hc
        simp [joinBlocks_concat]
    · rw [if_neg hc]
      by_cases hpe : c = '+' ∨ c = '='
      · rw [if_pos hpe]
        simp
      · rw [if_neg hpe]
        rw [pmBlocksAux_join rest (c :: cur) acc]
        simp

theorem pmCandList_sum : ∀ (bs : List Str) (rem : Str) (p r : Str),
    (p, r) ∈ pmCandList bs rem → p ++ r = joinBlocks bs ++ rem
  | [], rem, p, r, h => by
    simp only [pmCandList, List.mem_singleton, Prod.mk.injEq] at h
    rw [h.1, h.2]
    simp [joinBlocks]
  | b :: bs, rem, p, r, h => by
    simp only [pmCandList, List.mem_append, List.mem_map,
      List.mem_singleton] at h
    rcases h with ⟨⟨p2, r2⟩, hmem, heq⟩ | heq
    · simp only [Prod.mk.injEq] at heq
      obtain ⟨hp, hr⟩ := heq
      subst hp
      subst hr
      have h0 := pmCandList_sum bs rem p2 r2 hmem
      rw [joinBlocks_cons]
      simp [h0]
    · simp only [Prod.mk.injEq] at heq
      obtain ⟨hp, hr⟩ := heq
      subst hp
      subst hr
      simp

theorem pmFirst_exists : ∀ (cands : List (Str × Str)) (res : Str × Str × Option Str),
    pmFirst cands = some res → ∃ pr, pr ∈ cands ∧ pmAttempt pr.1 pr.2 = some res
  | [], res, h => by simp [pmFirst] at h
  | (p, r) :: rest, res, h => by
    unfold pmFirst at h
    cases ha : pmAttempt p r with
    | some res2 =>
      rw [ha] at h
      simp only [Option.some.injEq] at h
      subst h
      exact ⟨(p, r), by simp, ha⟩
    | none =>
      rw [ha] at h
      obtain ⟨pr, hmem, hatt⟩ := pmFirst_exists rest res h
      exact ⟨pr, by simp [hmem], hatt⟩

theorem placeholderMatch_decomp (tok : Str) (pre k : Str) (v : Option Str)
    (hm0 : placeholderMatch tok = some (pre, k, v)) (hn : '\n' ∉ tok) :
    tok = pre ++ k ++ v.elim [] (fun w => '=' :: w) := by
  unfold placeholderMatch at hm0
  cases hb : pmBlocks tok with
  | mk bs rem =>
    rw [hb] at hm0
    simp only [] at hm0
    obtain ⟨⟨p, r⟩, hmem, hatt⟩ := pmFirst_exists _ _ hm0
    have hsum : p ++ r = joinBlocks bs ++ rem := pmCandList_sum bs rem p r hmem
    have htok : joinBlocks bs ++ rem = tok := by
      have h0 := pmBlocksAux_join tok [] []
      unfold pmBlocks at hb
      rw [hb] at h0
      simpa using h0
    have hnr : '\n' ∉ r := by
      intro hmm
      apply hn
      rw [← htok, ← hsum]
      simp [hmm]
    obtain ⟨hp, hr⟩ := pmAttempt_decomp p r (pre, k, v) hatt hnr
    simp only [] at hp hr
    subst hp
    clear hm0 hatt
    cases v with
    | none =>
      simp only [] at hr
      simp only [Option.elim]
      rw [← htok, ← hsum, hr]
      simp
    | some w =>
      simp only [] at hr
      simp only [Option.elim]
      rw [← htok, ← hsum, hr]
      simp


/-! ### Toggle-side fold invariants of the define scan -/

theorem step_toggles_plain (st : ScanSt) (t : Str)
    (htm : toggleMatch t = none) :
    (handle_set_placeholder st t).1.toggles = st.toggles := by
  cases hpm : placeholderMatch t with
  | none =>
    simp only [handle_set_placeholder, htm, hpm]
    repeat' split
    all_goals rw [cp_toggles]
  | some r =>
    obtain ⟨pre, k, vv⟩ := r
    simp only [handle_set_placeholder, htm, hpm]
    repeat' split
    all_goals rw [cp_toggles]

theorem step_toggles_toggle (st : ScanSt) (t k g2 g3 : Str)
    (htm : toggleMatch t = some (k, g2, g3)) :
    (handle_set_placeholder st t).1.toggles =
      dset k (collapse_literal_braces g2, collapse_literal_braces g3)
        st.toggles := by
  simp only [handle_set_placeholder, htm]
  rw [ct_toggles]

theorem step_multiToggle_mono (st : ScanSt) (t x : Str)
    (h : x ∈ st.multi_togglevalue_names) :
    x ∈ (handle_set_placeholder st t).1.multi_togglevalue_names := by
  cases htm : toggleMatch t with
  | some r =>
    obtain ⟨k, g2, g3⟩ := r
    simp only [handle_set_placeholder, htm]
    exact ct_multiToggle_mono _ _ _ _ h
  | none =>
    cases hpm : placeholderMatch t with
    | none =>
      simp only [handle_set_placeholder, htm, hpm]
      repeat' split
      all_goals exact cp_multiToggle_mono _ _ _ _ _ h
    | some r =>
      obtain ⟨pre, k, vv⟩ := r
      simp only [handle_set_placeholder, htm, hpm]
      repeat' split
      all_goals exact cp_multiToggle_mono _ _ _ _ _ h

theorem step_multiToggle_detect (st : ScanSt) (t k g2 g3 : Str)
    (pr : Str × Str) (htm : toggleMatch t = some (k, g2, g3))
    (hst : dget k st.toggles = some pr)
    (hne : pr ≠ (collapse_literal_braces g2, collapse_literal_braces g3)) :
    k ∈ (handle_set_placeholder st t).1.multi_togglevalue_names := by
  simp only [handle_set_placeholder, htm]
  exact ct_multiToggle_detect k _ st pr hst
    (Bool.eq_false_iff.mpr (fun hT => hne ((tglEq_pair pr _ _).mp hT)))

theorem fold_multiToggle_mono (L : List Str) :
    ∀ (st : ScanSt) (x : Str), x ∈ st.multi_togglevalue_names →
      x ∈ (List.foldl (fun s t => (handle_set_placeholder s t).1)
            st L).multi_togglevalue_names := by
  induction L with
  | nil =>
    intro st x h
    exact h
  | cons t rest ih =>
    intro st x h
    rw [List.foldl_cons]
    exact ih _ _ (step_multiToggle_mono _ _ _ h)

theorem fold_toggles_stable (L : List Str) :
    ∀ (st : ScanSt) (k : Str) (pr : Str × Str),
      dget k st.toggles = some pr →
      k ∉ (List.foldl (fun s t => (handle_set_placeholder s t).1)
            st L).multi_togglevalue_names →
      dget k (List.foldl (fun s t => (handle_set_placeholder s t).1)
            st L).toggles = some pr := by
  induction L with
  | nil =>
    intro st k pr hv _
    exact hv
  | cons t rest ih =>
    intro st k pr hv hnm
    rw [List.foldl_cons] at hnm ⊢
    cases htm : toggleMatch t with
    | none =>
      refine ih _ _ _ ?_ hnm
      rw [step_toggles_plain st t htm]
      exact hv
    | some r =>
      obtain ⟨k2, g2, g3⟩ := r
      by_cases hk : k2 = k
      · subst hk
        by_cases hpr : pr =
            (collapse_literal_braces g2, collapse_literal_braces g3)
        · refine ih _ _ _ ?_ hnm
          rw [step_toggles_toggle st t k2 g2 g3 htm, hpr]
          exact dget_dset_self _ _ _
        · exact absurd (fold_multiToggle_mono rest _ _
            (step_multiToggle_detect st t k2 g2 g3 pr htm hv hpr)) hnm
      · refine ih _ _ _ ?_ hnm
        rw [step_toggles_toggle st t k2 g2 g3 htm,
          dget_dset_ne k2 k _ st.toggles (fun hh => hk hh.symm)]
        exact hv

theorem fold_values_stable_plus (L : List Str) :
    ∀ (st : ScanSt) (p : Str), p.head? = some '+' →
      dget p st.values = some none →
      dget p (List.foldl (fun s t => (handle_set_placeholder s t).1)
        st L).values = some none := by
  induction L with
  | nil =>
    intro st p _ hv
    exact hv
  | cons t rest ih =>
    intro st p hp hv
    rw [List.foldl_cons]
    cases htm : toggleMatch t with
    | some r =>
      refine ih _ _ hp ?_
      rw [step_values_toggle st t r htm]
      exact hv
    | none =>
      cases hpm : placeholderMatch t with
      | none =>
        by_cases hq : t = p
        · subst hq
          refine ih _ _ hp ?_
          rw [step_plain0_values st t htm hpm]
          exact dget_dset_self _ _ _
        · refine ih _ _ hp ?_
          rw [step_plain0_values st t htm hpm,
            dget_dset_ne t p none st.values (fun hh => hq hh.symm)]
          exact hv
      | some r =>
        obtain ⟨pre, k2, vv⟩ := r
        by_cases hq : k2 = p
        · subst hq
          exact absurd hp (placeholderMatch_key_head t (pre, k2, vv) hpm)
        · refine ih _ _ hp ?_
          rw [step_plain1_values st t pre k2 vv htm hpm,
            dget_dset_ne k2 p _ st.values (fun hh => hq hh.symm)]
          exact hv

/-! ### The stored dictionaries at a token's occurrence -/

theorem errors_empty (st : ScanSt) (h : print_errors st = false) :
    st.non_alphanum_names = [] ∧ st.invalid_modifiers = [] ∧
    st.multi_value_names = [] ∧ st.multi_togglevalue_names = [] ∧
    st.toggles_without_values = [] ∧ st.toggle_dup_names = [] := by
  simp only [print_errors, ne_eq, decide_not, Bool.and_eq_false_iff,
    decide_eq_false_iff_not, not_or, not_not] at h
  simpa [not_not] using h

theorem scan_toggle_value (T tok k g2 g3 : Str)
    (hmem : tok ∈ cmdTokens T) (htm : toggleMatch tok = some (k, g2, g3))
    (herr : (defineScan T).1.multi_togglevalue_names = []) :
    dget k (defineScan T).1.toggles =
      some (collapse_literal_braces g2, collapse_literal_braces g3) := by
  obtain ⟨l1, l2, hdec⟩ := List.append_of_mem hmem
  have hfold : (defineScan T).1 =
      List.foldl (fun s t => (handle_set_placeholder s t).1)
        ((handle_set_placeholder
          (List.foldl (fun s t => (handle_set_placeholder s t).1)
            ScanSt.initial l1) tok).1) l2 := by
    rw [defineScan_state, hdec, List.foldl_append, List.foldl_cons]
  rw [hfold]
  refine fold_toggles_stable l2 _ k _ ?_ ?_
  · rw [step_toggles_toggle _ tok k g2 g3 htm]
    exact dget_dset_self _ _ _
  · rw [← hfold, herr]
    simp

theorem scan_plain_value (T tok k : Str) (v : Option Str)
    (hmem : tok ∈ cmdTokens T) (hkv : tokenPlainKV tok = some (k, v))
    (hp : k.head? ≠ some '+')
    (herr : (defineScan T).1.multi_value_names = []) :
    dget k (defineScan T).1.values = some v := by
  obtain ⟨l1, l2, hdec⟩ := List.append_of_mem hmem
  have hfold : (defineScan T).1 =
      List.foldl (fun s t => (handle_set_placeholder s t).1)
        ((handle_set_placeholder
          (List.foldl (fun s t => (handle_set_placeholder s t).1)
            ScanSt.initial l1) tok).1) l2 := by
    rw [defineScan_state, hdec, List.foldl_append, List.foldl_cons]
  rw [hfold]
  refine fold_values_stable l2 _ k v hp ?_ ?_
  · rw [step_values_kv _ tok k v hkv]
    exact dget_dset_self _ _ _
  · rw [← hfold, herr]
    simp

theorem scan_plain_value_plus (T tok k : Str)
    (hmem : tok ∈ cmdTokens T) (hkv : tokenPlainKV tok = some (k, none))
    (hp : k.head? = some '+') :
    dget k (defineScan T).1.values = some none := by
  obtain ⟨l1, l2, hdec⟩ := List.append_of_mem hmem
  have hfold : (defineScan T).1 =
      List.foldl (fun s t => (handle_set_placeholder s t).1)
        ((handle_set_placeholder
          (List.foldl (fun s t => (handle_set_placeholder s t).1)
            ScanSt.initial l1) tok).1) l2 := by
    rw [defineScan_state, hdec, List.foldl_append, List.foldl_cons]
  rw [hfold]
  refine fold_values_stable_plus l2 _ k hp ?_
  rw [step_values_kv _ tok k none hkv]
  exact dget_dset_self _ _ _

/-! ### Each benign token re-serializes to itself -/

theorem token_reconstruct (T tok : Str)
    (hmem : tok ∈ cmdTokens T) (hnice : niceToken tok)
    (herr : print_errors (defineScan T).1 = false) :
    handle_update_placeholder tok (defineScan T).1.values
      (defineScan T).1.toggles = tok := by
  obtain ⟨-, -, hmv, hmt, -, -⟩ := errors_empty _ herr
  have hn : '\n' ∉ tok := fun hm => (hnice _ hm).2.2 rfl
  have hbf : braceFree tok := fun c hc => ⟨(hnice c hc).1, (hnice c hc).2.1⟩
  cases htm : toggleMatch tok with
  | some r =>
    obtain ⟨k, g2, g3⟩ := r
    have hdec := toggleMatch_decomp tok k g2 g3 htm hn
    have hstore := scan_toggle_value T tok k g2 g3 hmem htm hmt
    simp only [handle_update_placeholder, htm, hstore]
    have hbf2 : braceFree g2 := fun c hc => hbf c (by rw [hdec]; simp [hc])
    have hbf3 : braceFree g3 := fun c hc => hbf c (by rw [hdec]; simp [hc])
    rw [explode_literal_braces_id _ (by
        rw [collapse_literal_braces_id g2 hbf2]; exact hbf2),
      explode_literal_braces_id _ (by
        rw [collapse_literal_braces_id g3 hbf3]; exact hbf3),
      collapse_literal_braces_id g2 hbf2, collapse_literal_braces_id g3 hbf3]
    exact hdec.symm
  | none =>
    cases hpm : placeholderMatch tok with
    | none =>
      have hkv : tokenPlainKV tok = some (tok, none) := by
        simp [tokenPlainKV, htm, hpm]
      by_cases hp : tok.head? = some '+'
      · have hstore := scan_plain_value_plus T tok tok hmem hkv hp
        simp only [handle_update_placeholder, htm, hpm, hstore]
        simp
      · have hstore := scan_plain_value T tok tok none hmem hkv hp hmv
        simp only [handle_update_placeholder, htm, hpm, hstore]
        simp
    | some r =>
      obtain ⟨pre, k, vv⟩ := r
      have hp : k.head? ≠ some '+' :=
        placeholderMatch_key_head tok (pre, k, vv) hpm
      have hdec := placeholderMatch_decomp tok pre k vv hpm hn
      cases vv with
      | none =>
        have hkv : tokenPlainKV tok = some (k, none) := by
          simp [tokenPlainKV, htm, hpm]
        have hstore := scan_plain_value T tok k none hmem hkv hp hmv
        simp only [handle_update_placeholder, htm, hpm, hstore]
        simp only [Option.elim] at hdec
        rw [hdec]
        simp
      | some w =>
        have hbfw : braceFree w := fun c hc => hbf c (by rw [hdec]; simp [hc])
        have hkv : tokenPlainKV tok =
            some (k, some (collapse_literal_braces w)) := by
          simp [tokenPlainKV, htm, hpm]
        have hstore := scan_plain_value T tok k
          (some (collapse_literal_braces w)) hmem hkv hp hmv
        simp only [handle_update_placeholder, htm, hpm, hstore]
        rw [explode_literal_braces_id _ (by
            rw [collapse_literal_braces_id w hbfw]; exact hbfw),
          collapse_literal_braces_id w hbfw]
        simp only [Option.elim] at hdec
        rw [hdec]


/-! ### The update pass reproduces the commandline verbatim -/

theorem processAux_id (args : Dyct (Option Str)) (tgls : Dyct (Str × Str))
    (input : Str) :
    ∀ (ph fmt : Str) (prev : Option Char),
      (∀ t ∈ tokensAux input ph prev,
        handle_update_placeholder t args tgls = t) →
      endPhAux input ph prev = [] →
      (processAux
        (fun (u : Unit) t => (u, handle_update_placeholder t args tgls))
        input ph fmt prev ()).2 = fmt ++ ph ++ input := by
  induction input with
  | nil =>
    intro ph fmt prev _ hend
    have hph : ph = [] := hend
    subst hph
    simp [processAux]
  | cons c rest ih =>
    intro ph fmt prev htok hend
    unfold processAux
    unfold tokensAux at htok
    unfold endPhAux at hend
    by_cases h1 : ph = []
    · rw [if_pos h1]
      rw [if_pos h1] at htok hend
      by_cases h2 : prev = some '{' ∧ ¬(c = '{' ∨ c = '}')
      · rw [if_pos h2]
        rw [if_pos h2] at htok hend
        subst h1
        rw [ih [c] fmt (nextPrev c prev) htok hend]
        simp
      · rw [if_neg h2]
        rw [if_neg h2] at htok hend
        subst h1
        rw [ih [] (fmt ++ [c]) (nextPrev c prev) htok hend]
        simp
    · rw [if_neg h1]
      rw [if_neg h1] at htok hend
      by_cases h2 : c = '}' ∧ prev ≠ some '}'
      · rw [if_pos h2]
        rw [if_pos h2] at htok hend
        have hid : handle_update_placeholder ph args tgls = ph :=
          htok ph (by simp)
        simp only []
        rw [hid]
        rw [ih [] (fmt ++ ph ++ [c]) (nextPrev c prev)
          (fun t ht => htok t (by simp [ht])) hend]
        simp
      · rw [if_neg h2]
        rw [if_neg h2] at htok hend
        rw [ih (ph ++ [c]) fmt (nextPrev c prev) htok hend]
        simp

theorem update_cmdline_id (T : Str)
    (herr : print_errors (defineScan T).1 = false)
    (hend : endPh T = [])
    (hnice : ∀ tok ∈ cmdTokens T, niceToken tok) :
    update_cmdline (defineDict T) = defineDict T := by
  unfold update_cmdline
  have hargs : (defineDict T).args = (defineScan T).1.values := by
    unfold defineDict
    cases hd : defineScan T
    rfl
  have htgls : (defineDict T).toggle_args = (defineScan T).1.toggles := by
    unfold defineDict
    cases hd : defineScan T
    rfl
  have hcl : (defineDict T).cmdline = T := by
    unfold defineDict
    cases hd : defineScan T
    rfl
  rw [hargs, htgls, hcl]
  have hout : (process_cmdline
      (fun (u : Unit) t =>
        (u, handle_update_placeholder t (defineScan T).1.values
          (defineScan T).1.toggles)) T ()).2 = T := by
    unfold process_cmdline
    have h0 := processAux_id (defineScan T).1.values (defineScan T).1.toggles
      T [] [] none
      (fun t ht => token_reconstruct T t ht (hnice t ht) herr) hend
    simpa using h0
  rw [hout]
  cases hdd : defineDict T with
  | mk cl f a m tg =>
    rw [hdd] at hcl hargs htgls
    simp only [] at hcl hargs htgls
    rw [hcl, ← hargs, ← htgls]

/-! ### Reading off a successful define -/

theorem define_success_elim (cmd T : Str) (ow : Bool) (store store2 : CmdStore)
    (h : define cmd T ow store = (0, store2, true)) :
    print_errors (defineScan T).1 = false ∧
    store2 = dset cmd (defineDict T) store := by
  unfold define at h
  split at h
  · exact absurd h (by simp)
  · split at h
    · exact absurd h (by simp)
    · cases hd : defineScan T with
      | mk st fmt =>
        rw [hd] at h
        simp only [] at h
        split at h
        · exact absurd h (by simp)
        · rename_i hpe
          split at h
          · exact absurd h (by simp)
          · simp only [Prod.mk.injEq] at h
            obtain ⟨-, hst, -⟩ := h
            refine ⟨?_, ?_⟩
            · exact Bool.eq_false_iff.mpr hpe
            · rw [← hst]
              have hdd : defineDict T =
                  ⟨T, fmt, st.values, st.modifiers, st.toggles⟩ := by
                unfold defineDict
                rw [hd]
              rw [hdd]

/-- C4: counterexample to the unrestricted round trip.  The template
`{p=a{b}` (with a stray inner brace in the default value) passes all of
define's validation, yet the no-change vals path re-escapes the stored
value and writes back the different template `{p=a{{b}`. -/
theorem c4_counterexample_roundtrip :
    define (str "c") (str "\x7bp=a\x7bb\x7d") false [] =
      (0, [(str "c", defineDict (str "\x7bp=a\x7bb\x7d"))], true) ∧
    vals [(str "c", defineDict (str "\x7bp=a\x7bb\x7d"))] (str "c") [] [] =
      (0, [(str "c", update_cmdline (defineDict (str "\x7bp=a\x7bb\x7d")))],
        []) ∧
    (update_cmdline (defineDict (str "\x7bp=a\x7bb\x7d"))).cmdline =
      str "\x7bp=a\x7b\x7bb\x7d" ∧
    str "\x7bp=a\x7b\x7bb\x7d" ≠ str "\x7bp=a\x7bb\x7d" := by
  refine ⟨?_, ?_, ?_, ?_⟩ <;> decide

/-- C4 (amended): for a command stored by a successful `define` whose
template has no dangling placeholder and only benign tokens (no brace and
no newline characters inside any token), the no-change vals round trip is
the identity: re-deriving the commandline from the unchanged values
reproduces the stored template, and `vals` with no overrides rewrites the
store to itself with status 0. -/
theorem c4_no_change_roundtrip (cmd T : Str) (ow : Bool)
    (store store2 : CmdStore)
    (hdef : define cmd T ow store = (0, store2, true))
    (hend : endPh T = [])
    (hnice : ∀ tok ∈ cmdTokens T, niceToken tok) :
    update_cmdline (defineDict T) = defineDict T ∧
    vals store2 cmd [] [] = (0, store2, []) := by
  obtain ⟨herr, hst2⟩ := define_success_elim cmd T ow store store2 hdef
  have hupd := update_cmdline_id T herr hend hnice
  refine ⟨hupd, ?_⟩
  have hd2 : dget cmd store2 = some (defineDict T) := by
    rw [hst2]
    exact dget_dset_self _ _ _
  unfold vals command_with_values
  rw [hd2]
  simp only [Bool.false_eq_true, if_false]
  rw [show update_default_values_from_args (defineDict T).args
      (defineDict T).toggle_args [] [] =
    some ((defineDict T).args, (defineDict T).toggle_args, []) from rfl]
  simp only []
  show (0, dset cmd (update_cmdline (defineDict T)) store2, ([] : List Str)) =
    (0, store2, [])
  rw [hupd, hst2, dset_dset_self]

/-- Witness for C4 at the template `a {p=v} b`. -/
theorem c4_no_change_roundtrip_witness :
    update_cmdline (defineDict (str "a \x7bp=v\x7d b")) =
      defineDict (str "a \x7bp=v\x7d b") ∧
    vals [(str "c", defineDict (str "a \x7bp=v\x7d b"))] (str "c") [] [] =
      (0, [(str "c", defineDict (str "a \x7bp=v\x7d b"))], []) := by
  have h := c4_no_change_roundtrip (str "c") (str "a \x7bp=v\x7d b") false []
    [(str "c", defineDict (str "a \x7bp=v\x7d b"))]
    (by decide) (by decide) (by decide)
  exact ⟨h.1, h.2⟩

end Chaintool
